import Mathlib

/-!
Verification development for the System Information Tool (`src/main.py`).

The program is a one-shot collect-then-format CLI: six metric collectors
(system, cpu, memory, disk, network, processes) build a dictionary of
results, which the driver routes to stdout (text or JSON) or to a file
(always JSON, 4-space indent).

Modelling conventions:
* Python dictionaries are modelled as ordered association lists
  (`List (String × Json)`); CPython ≥ 3.7 preserves insertion order.
* Python floats are modelled as exact decimal fractions `Dec` (mantissa
  and decimal exponent): every float the program handles is printed via
  `repr`, which emits a decimal literal.  `e = 0` marks a Python `int`,
  `e > 0` a `float` printed with a decimal point.
* OS-provided data (psutil results, platform strings, the clock) is an
  explicit input (`Env`), since the collectors are otherwise pure.
-/

namespace SysInfo

/-- Exact decimal number `m / 10 ^ e`; the model of Python ints (`e = 0`)
and floats (`e > 0`) appearing in the snapshot. -/
structure Dec where
  m : Int
  e : Nat
deriving DecidableEq, Repr

/-- Numeric value comparison of decimals: `m₁/10^e₁ ≤ m₂/10^e₂`. -/
def Dec.le (x y : Dec) : Bool :=
  decide (x.m * (10 : Int) ^ y.e ≤ y.m * (10 : Int) ^ x.e)

/-- JSON-like values: the shape of everything the program formats.
Objects are ordered key/value lists (Python dicts). -/
inductive Json where
  | null : Json
  | bool : Bool → Json
  | num : Int → Nat → Json
  | str : String → Json
  | arr : List Json → Json
  | obj : List (String × Json) → Json
deriving Repr

/-- Digit accumulation for decimal printing (`repr` of a nonnegative int). -/
def natDigitsGo (n : Nat) (acc : List Char) : List Char :=
  if h : n < 10 then Nat.digitChar n :: acc
  else natDigitsGo (n / 10) (Nat.digitChar (n % 10) :: acc)
decreasing_by exact Nat.div_lt_self (by omega) (by omega)

/-- Decimal digits of `n`, most significant first; `[ '0' ]` for zero. -/
def natDigits (n : Nat) : List Char := natDigitsGo n []

/-- Left-pad a digit string with zeros to length at least `k`. -/
def padZeros (ds : List Char) (k : Nat) : List Char :=
  List.replicate (k - ds.length) '0' ++ ds

/-- Unsigned part of the decimal literal for `a / 10^e`: plain digits
when `e = 0`, otherwise the digits of `a` (zero-padded to at least
`e + 1` digits) with a point before the last `e` of them. -/
def bodyChars (a : Nat) (e : Nat) : List Char :=
  let ds := padZeros (natDigits a) (e + 1)
  if e = 0 then ds
  else ds.take (ds.length - e) ++ '.' :: ds.drop (ds.length - e)

/-- Characters of the Python literal for `m / 10^e`: `repr(int)` when
`e = 0`, otherwise a positional decimal with exactly `e` fractional
digits (`-0.53` for `m = -53, e = 2`).  This is how both `json.dumps`
and `str()` render the numbers the program produces. -/
def numChars (m : Int) (e : Nat) : List Char :=
  if m < 0 then '-' :: bodyChars m.natAbs e else bodyChars m.natAbs e

/-- Four lowercase hex digits of `n % 0x10000`, as in CPython's
`\uXXXX` escapes. -/
def hex4 (n : Nat) : List Char :=
  [Nat.digitChar (n / 4096 % 16), Nat.digitChar (n / 256 % 16),
   Nat.digitChar (n / 16 % 16), Nat.digitChar (n % 16)]

/-- JSON escape of one character, following CPython's
`py_encode_basestring_ascii` (the `ensure_ascii=True` default used by
`json.dump`): shorthand escapes, `\uXXXX` for other non-printable or
non-ASCII characters, surrogate pairs above the BMP. -/
def escapeChar (c : Char) : List Char :=
  if c = '"' then ['\\', '"']
  else if c = '\\' then ['\\', '\\']
  else if c = '\n' then ['\\', 'n']
  else if c = '\r' then ['\\', 'r']
  else if c = '\t' then ['\\', 't']
  else if c = '\x08' then ['\\', 'b']
  else if c = '\x0c' then ['\\', 'f']
  else if 0x20 ≤ c.toNat ∧ c.toNat ≤ 0x7e then [c]
  else if c.toNat < 0x10000 then '\\' :: 'u' :: hex4 c.toNat
  else
    ('\\' :: 'u' :: hex4 (0xd800 + (c.toNat - 0x10000) / 0x400)) ++
    ('\\' :: 'u' :: hex4 (0xdc00 + (c.toNat - 0x10000) % 0x400))

/-- JSON escape of a character sequence. -/
def encodeStr : List Char → List Char
  | [] => []
  | c :: cs => escapeChar c ++ encodeStr cs

/-- Characters of a JSON string literal (quotes included). -/
def strLit (s : String) : List Char := '"' :: (encodeStr s.data ++ ['"'])

mutual

/-- Characters of `json.dumps(v, indent=4)` when the opening token sits
at indentation level `ind`: containers break onto new lines indented by
`ind + 4`, the key separator is `": "`, the item separator `","`. -/
def dumpsV : Nat → Json → List Char
  | _, .null => ['n', 'u', 'l', 'l']
  | _, .bool true => ['t', 'r', 'u', 'e']
  | _, .bool false => ['f', 'a', 'l', 's', 'e']
  | _, .num m e => numChars m e
  | _, .str s => strLit s
  | _, .arr [] => ['[', ']']
  | ind, .arr (x :: xs) =>
    '[' :: '\n' :: (List.replicate (ind + 4) ' ' ++ dumpsV (ind + 4) x ++
      dumpsItems (ind + 4) xs ++ '\n' :: (List.replicate ind ' ' ++ [']']))
  | _, .obj [] => ['\x7b', '\x7d']
  | ind, .obj (kv :: kvs) =>
    '\x7b' :: '\n' :: (List.replicate (ind + 4) ' ' ++ strLit kv.1 ++
      ':' :: ' ' :: dumpsV (ind + 4) kv.2 ++
      dumpsMembers (ind + 4) kvs ++ '\n' :: (List.replicate ind ' ' ++ ['\x7d']))

/-- Remaining array items, each preceded by `",\n"` and indentation. -/
def dumpsItems : Nat → List Json → List Char
  | _, [] => []
  | ind, x :: xs =>
    ',' :: '\n' :: (List.replicate ind ' ' ++ dumpsV ind x ++ dumpsItems ind xs)

/-- Remaining object members, each preceded by `",\n"` and indentation. -/
def dumpsMembers : Nat → List (String × Json) → List Char
  | _, [] => []
  | ind, kv :: kvs =>
    ',' :: '\n' :: (List.replicate ind ' ' ++ strLit kv.1 ++
      ':' :: ' ' :: dumpsV ind kv.2 ++ dumpsMembers ind kvs)

end

/-- Model of `json.dumps(v, indent=4)` (also what `json.dump(v, f, indent=4)`
writes to the file), starting at indentation level 0. -/
def dumps (v : Json) : String := String.mk (dumpsV 0 v)

/-! ### A JSON reader

Model of `json.loads` restricted to the grammar the serializer above
emits: literals, decimal numbers without exponent notation, strings
with shorthand and `\uXXXX` escapes (surrogate pairs recombined, lone
surrogates rejected since they denote no Unicode scalar value), arrays
and objects, with JSON whitespace between tokens. -/

/-- JSON whitespace (space, newline, tab, carriage return). -/
def isWs (c : Char) : Bool := c = ' ' || c = '\n' || c = '\t' || c = '\r'

/-- Drop leading JSON whitespace. -/
def skipWs : List Char → List Char
  | [] => []
  | c :: cs => if isWs c then skipWs cs else c :: cs

/-- ASCII decimal digit test (the `[0-9]` of the JSON number grammar). -/
def isDigitC (c : Char) : Bool := 48 ≤ c.toNat && c.toNat ≤ 57

/-- Value of one hex digit (`0-9`, `a-f`, `A-F`). -/
def decodeHexDigit (c : Char) : Option Nat :=
  if 48 ≤ c.toNat ∧ c.toNat ≤ 57 then some (c.toNat - 48)
  else if 97 ≤ c.toNat ∧ c.toNat ≤ 102 then some (c.toNat - 87)
  else if 65 ≤ c.toNat ∧ c.toNat ≤ 70 then some (c.toNat - 55)
  else none

/-- Value of a four-hex-digit group, as in `\uXXXX`. -/
def decodeHex4 (a b c d : Char) : Option Nat :=
  match decodeHexDigit a, decodeHexDigit b, decodeHexDigit c, decodeHexDigit d with
  | some x, some y, some z, some w => some (x * 4096 + y * 256 + z * 16 + w)
  | _, _, _, _ => none

/-- Shorthand string escapes of JSON. -/
def decodeEsc (e : Char) : Option Char :=
  if e = '"' then some '"'
  else if e = '\\' then some '\\'
  else if e = '/' then some '/'
  else if e = 'b' then some '\x08'
  else if e = 'f' then some '\x0c'
  else if e = 'n' then some '\n'
  else if e = 'r' then some '\r'
  else if e = 't' then some '\t'
  else none

/-- Combine a high surrogate value `n` with a following `\uXXXX` low
surrogate into one astral character. -/
def combineSurrogate (n : Nat) (s : List Char) : Option (Char × List Char) :=
  match s with
  | b1 :: b2 :: g1 :: g2 :: g3 :: g4 :: rest4 =>
    if b1 = '\\' ∧ b2 = 'u' then
      match decodeHex4 g1 g2 g3 g4 with
      | some k =>
        if 0xdc00 ≤ k ∧ k ≤ 0xdfff then
          some (Char.ofNat (0x10000 + (n - 0xd800) * 0x400 + (k - 0xdc00)), rest4)
        else none
      | none => none
    else none
  | _ => none

/-- Decode a `\uXXXX` escape (after the `\u`), recombining surrogate
pairs and rejecting lone surrogates (they denote no scalar value). -/
def decodeUHex (s : List Char) : Option (Char × List Char) :=
  match s with
  | h1 :: h2 :: h3 :: h4 :: rest3 =>
    match decodeHex4 h1 h2 h3 h4 with
    | none => none
    | some n =>
      if 0xd800 ≤ n ∧ n ≤ 0xdbff then combineSurrogate n rest3
      else if 0xdc00 ≤ n ∧ n ≤ 0xdfff then none
      else some (Char.ofNat n, rest3)
  | _ => none

/-- Decode one character of a JSON string body: a raw character, a
shorthand escape, a `\uXXXX` escape, or a surrogate pair.  Returns the
decoded character and the remaining input; fails at a closing quote or
a malformed escape. -/
def decodeOne : List Char → Option (Char × List Char)
  | [] => none
  | c :: rest =>
    if c = '"' then none
    else if c = '\\' then
      match rest with
      | [] => none
      | e :: rest2 =>
        if e = 'u' then decodeUHex rest2
        else
          match decodeEsc e with
          | some d => some (d, rest2)
          | none => none
    else some (c, rest)

theorem combineSurrogate_length {n : Nat} {s r : List Char} {ch : Char}
    (h : combineSurrogate n s = some (ch, r)) : r.length + 6 ≤ s.length := by
  unfold combineSurrogate at h
  repeat' split at h
  all_goals simp_all

theorem decodeUHex_length {s r : List Char} {ch : Char}
    (h : decodeUHex s = some (ch, r)) : r.length < s.length := by
  unfold decodeUHex at h
  repeat' split at h
  all_goals try simp_all
  · rename_i heq _ _ _
    have := combineSurrogate_length h
    simp_all
    omega
  · omega

/-- Whatever `decodeOne` leaves over is strictly shorter. -/
theorem decodeOne_length {s r : List Char} {ch : Char}
    (h : decodeOne s = some (ch, r)) : r.length < s.length := by
  match s with
  | [] => simp [decodeOne] at h
  | c :: rest =>
    unfold decodeOne at h
    repeat' split at h
    all_goals try (have q := decodeUHex_length h)
    all_goals simp_all
    all_goals omega

/-- Read a JSON string body after the opening quote; returns the decoded
characters and the input after the closing quote. -/
def parseStringBody : List Char → Option (List Char × List Char)
  | [] => none
  | c :: rest =>
    if c = '"' then some ([], rest)
    else
      match h : decodeOne (c :: rest) with
      | some (ch, r) => (parseStringBody r).map (fun p => (ch :: p.1, p.2))
      | none => none
termination_by s => s.length
decreasing_by exact decodeOne_length h

/-- Munch decimal digits, extending accumulator `acc`; returns the value,
the number of digits read, and the rest of the input. -/
def parseDigits : List Char → Nat → Nat × Nat × List Char
  | [], acc => (acc, 0, [])
  | c :: cs, acc =>
    if isDigitC c then
      let t := parseDigits cs (acc * 10 + (c.toNat - 48))
      (t.1, t.2.1 + 1, t.2.2)
    else (acc, 0, c :: cs)

/-- Read the unsigned part of a JSON number (integer digits, optional
point and fraction digits); `neg` records a consumed leading minus. -/
def parseNumAfterSign (neg : Bool) (s : List Char) : Option (Json × List Char) :=
  match s with
  | [] => none
  | c :: _ =>
    if isDigitC c then
      let t := parseDigits s 0
      match t.2.2 with
      | [] => some (.num (if neg then -(t.1 : Int) else (t.1 : Int)) 0, [])
      | d :: r2 =>
        if d = '.' then
          match r2 with
          | [] => none
          | d2 :: _ =>
            if isDigitC d2 then
              let u := parseDigits r2 t.1
              some (.num (if neg then -(u.1 : Int) else (u.1 : Int)) u.2.1, u.2.2)
            else none
        else some (.num (if neg then -(t.1 : Int) else (t.1 : Int)) 0, d :: r2)
    else none

/-- Match an expected literal character sequence. -/
def stripList : List Char → List Char → Option (List Char)
  | [], s => some s
  | c :: cs, d :: ds => if d = c then stripList cs ds else none
  | _ :: _, [] => none

mutual

/-- Read one JSON value (fuel-indexed recursive descent). -/
def parseValue : Nat → List Char → Option (Json × List Char)
  | 0, _ => none
  | fuel + 1, s =>
    match skipWs s with
    | [] => none
    | c :: r =>
      if c = '"' then
        (parseStringBody r).map (fun p => (.str (String.mk p.1), p.2))
      else if c = '-' then parseNumAfterSign true r
      else if isDigitC c then parseNumAfterSign false (c :: r)
      else if c = 'n' then
        match stripList ['u', 'l', 'l'] r with
        | some r2 => some (.null, r2)
        | none => none
      else if c = 't' then
        match stripList ['r', 'u', 'e'] r with
        | some r2 => some (.bool true, r2)
        | none => none
      else if c = 'f' then
        match stripList ['a', 'l', 's', 'e'] r with
        | some r2 => some (.bool false, r2)
        | none => none
      else if c = '[' then
        match skipWs r with
        | [] => none
        | x :: r2 =>
          if x = ']' then some (.arr [], r2)
          else (parseItems fuel r).map (fun p => (.arr p.1, p.2))
      else if c = '\x7b' then
        match skipWs r with
        | [] => none
        | x :: r2 =>
          if x = '\x7d' then some (.obj [], r2)
          else (parseMembers fuel r).map (fun p => (.obj p.1, p.2))
      else none

/-- Read the items of a nonempty array up to and including `]`. -/
def parseItems : Nat → List Char → Option (List Json × List Char)
  | 0, _ => none
  | fuel + 1, s =>
    match parseValue fuel s with
    | none => none
    | some (v, r) =>
      match skipWs r with
      | [] => none
      | x :: r2 =>
        if x = ',' then
          match parseItems fuel r2 with
          | some (vs, r3) => some (v :: vs, r3)
          | none => none
        else if x = ']' then some ([v], r2)
        else none

/-- Read the members of a nonempty object up to and including the
closing brace. -/
def parseMembers : Nat → List Char → Option (List (String × Json) × List Char)
  | 0, _ => none
  | fuel + 1, s =>
    match skipWs s with
    | [] => none
    | c :: r =>
      if c = '"' then
        match parseStringBody r with
        | none => none
        | some (kcs, r2) =>
          match skipWs r2 with
          | [] => none
          | x :: r3 =>
            if x = ':' then
              match parseValue fuel r3 with
              | none => none
              | some (v, r4) =>
                match skipWs r4 with
                | [] => none
                | y :: r5 =>
                  if y = ',' then
                    match parseMembers fuel r5 with
                    | some (kvs, r6) => some ((String.mk kcs, v) :: kvs, r6)
                    | none => none
                  else if y = '\x7d' then some ([(String.mk kcs, v)], r5)
                  else none
            else none
      else none

end

mutual

/-- Fuel adequate for parsing a serialized value. -/
def sizeJ : Json → Nat
  | .null => 1
  | .bool _ => 1
  | .num _ _ => 1
  | .str _ => 1
  | .arr xs => 1 + sizeL xs
  | .obj kvs => 1 + sizeM kvs

/-- Fuel adequate for parsing serialized array items. -/
def sizeL : List Json → Nat
  | [] => 1
  | x :: xs => 1 + sizeJ x + sizeL xs

/-- Fuel adequate for parsing serialized object members. -/
def sizeM : List (String × Json) → Nat
  | [] => 1
  | kv :: kvs => 1 + sizeJ kv.2 + sizeM kvs

end

/-- Model of `json.loads` on the serializer's output grammar: one value,
optionally surrounded by whitespace, nothing else. -/
def loads (s : String) : Option Json :=
  match parseValue (s.data.length + 1) s.data with
  | some (v, r) => if skipWs r = [] then some v else none
  | none => none

/-! ### Digit-string lemmas -/

/-- Value of a digit string under the standard left fold. -/
def digitsVal (acc : Nat) (ds : List Char) : Nat :=
  ds.foldl (fun a c => a * 10 + (c.toNat - 48)) acc

theorem natDigitsGo_eq (n : Nat) (acc : List Char) :
    natDigitsGo n acc =
      if n < 10 then Nat.digitChar n :: acc
      else natDigitsGo (n / 10) (Nat.digitChar (n % 10) :: acc) := by
  rw [natDigitsGo]
  split <;> simp_all

theorem natDigitsGo_append (n : Nat) (acc : List Char) :
    natDigitsGo n acc = natDigitsGo n [] ++ acc := by
  induction n using Nat.strong_induction_on generalizing acc with
  | _ n ih =>
    rw [natDigitsGo_eq, natDigitsGo_eq n []]
    by_cases h : n < 10
    · simp [h]
    · have hlt : n / 10 < n := Nat.div_lt_self (by omega) (by omega)
      simp only [if_neg h]
      rw [ih _ hlt, ih (n / 10) hlt [Nat.digitChar (n % 10)]]
      simp

theorem natDigits_ne_nil (n : Nat) : natDigits n ≠ [] := by
  unfold natDigits
  rw [natDigitsGo_eq]
  by_cases h : n < 10
  · simp [h]
  · simp only [if_neg h]
    rw [natDigitsGo_append]
    simp

theorem digitChar_isDigitC (d : Nat) (h : d < 10) :
    isDigitC (Nat.digitChar d) = true := by
  interval_cases d <;> decide

theorem digitChar_toNat (d : Nat) (h : d < 10) :
    (Nat.digitChar d).toNat = 48 + d := by
  interval_cases d <;> decide

theorem natDigits_digits (n : Nat) : ∀ c ∈ natDigits n, isDigitC c = true := by
  induction n using Nat.strong_induction_on with
  | _ n ih =>
    intro c hc
    unfold natDigits at hc
    rw [natDigitsGo_eq] at hc
    by_cases h : n < 10
    · simp [h] at hc
      subst hc
      exact digitChar_isDigitC n h
    · have hlt : n / 10 < n := Nat.div_lt_self (by omega) (by omega)
      simp only [if_neg h] at hc
      rw [natDigitsGo_append] at hc
      rcases List.mem_append.mp hc with h1 | h1
      · exact ih _ hlt c h1
      · simp at h1
        subst h1
        exact digitChar_isDigitC _ (Nat.mod_lt _ (by omega))

theorem digitsVal_acc (acc : Nat) (ds : List Char) :
    digitsVal acc ds = acc * 10 ^ ds.length + digitsVal 0 ds := by
  induction ds generalizing acc with
  | nil => simp [digitsVal]
  | cons c t ih =>
    simp only [digitsVal, List.foldl_cons] at *
    rw [ih (acc * 10 + (c.toNat - 48)), ih (0 * 10 + (c.toNat - 48))]
    simp [List.length_cons, pow_succ]
    ring

theorem digitsVal_append (acc : Nat) (a b : List Char) :
    digitsVal acc (a ++ b) = digitsVal (digitsVal acc a) b := by
  simp [digitsVal, List.foldl_append]

theorem digitsVal_natDigits (n : Nat) : digitsVal 0 (natDigits n) = n := by
  induction n using Nat.strong_induction_on with
  | _ n ih =>
    unfold natDigits
    rw [natDigitsGo_eq]
    by_cases h : n < 10
    · simp [h, digitsVal, digitChar_toNat n h]
    · have hlt : n / 10 < n := Nat.div_lt_self (by omega) (by omega)
      simp only [if_neg h]
      rw [natDigitsGo_append, digitsVal_append]
      have hng : natDigitsGo (n / 10) [] = natDigits (n / 10) := rfl
      rw [hng, ih _ hlt]
      simp [digitsVal, digitChar_toNat _ (Nat.mod_lt _ (by omega))]
      omega

/-! ### Facts about the padded digit string of `bodyChars` -/

theorem padZeros_digits (ds : List Char) (k : Nat)
    (h : ∀ c ∈ ds, isDigitC c = true) :
    ∀ c ∈ padZeros ds k, isDigitC c = true := by
  intro c hc
  unfold padZeros at hc
  rcases List.mem_append.mp hc with h1 | h1
  · have := List.eq_of_mem_replicate h1
    subst this
    decide
  · exact h c h1

theorem padZeros_val (ds : List Char) (k : Nat) :
    digitsVal 0 (padZeros ds k) = digitsVal 0 ds := by
  unfold padZeros
  generalize k - ds.length = j
  induction j with
  | zero => simp
  | succ m ih => simpa [List.replicate_succ, digitsVal] using ih

theorem padZeros_length (ds : List Char) (k : Nat) :
    k ≤ (padZeros ds k).length := by
  simp [padZeros]
  omega

theorem padZeros_ne_nil (ds : List Char) (k : Nat) (h : ds ≠ []) :
    padZeros ds k ≠ [] := by
  simp [padZeros, h]

/-! ### Number parsing round-trip -/

/-- A list is a numeric boundary when it does not start with a digit
or a decimal point; the character after a serialized number in any
context (`,`, `]`, a closing brace, whitespace, end of input) is one. -/
def numBoundary (rest : List Char) : Prop :=
  ∀ c t, rest = c :: t → isDigitC c = false ∧ c ≠ '.'

theorem parseDigits_spec (ds : List Char) (rest : List Char) (acc : Nat)
    (hd : ∀ c ∈ ds, isDigitC c = true)
    (hb : ∀ c t, rest = c :: t → isDigitC c = false) :
    parseDigits (ds ++ rest) acc = (digitsVal acc ds, ds.length, rest) := by
  induction ds generalizing acc with
  | nil =>
    match rest with
    | [] => simp [parseDigits, digitsVal]
    | c :: t =>
      have := hb c t rfl
      simp [parseDigits, this, digitsVal]
  | cons c t ih =>
    have hc : isDigitC c = true := hd c (by simp)
    simp only [List.cons_append, parseDigits, hc, if_pos, List.append_eq]
    rw [ih (acc * 10 + (c.toNat - 48)) (fun x hx => hd x (by simp [hx]))]
    simp [digitsVal]

theorem digits_head (ds : List Char) (h : ds ≠ [])
    (hd : ∀ c ∈ ds, isDigitC c = true) :
    ∃ x t, ds = x :: t ∧ isDigitC x = true := by
  match ds with
  | [] => exact absurd rfl h
  | x :: t => exact ⟨x, t, rfl, hd x (by simp)⟩

theorem parseNumAfterSign_body (a : Nat) (e : Nat) (neg : Bool)
    (rest : List Char) (hb : numBoundary rest) :
    parseNumAfterSign neg (bodyChars a e ++ rest) =
      some (.num (if neg then -(a : Int) else (a : Int)) e, rest) := by
  have hds := padZeros_digits (natDigits a) (e + 1) (natDigits_digits a)
  have hdsn := padZeros_ne_nil (natDigits a) (e + 1) (natDigits_ne_nil a)
  have hdsl := padZeros_length (natDigits a) (e + 1)
  have hdsv : digitsVal 0 (padZeros (natDigits a) (e + 1)) = a := by
    rw [padZeros_val, digitsVal_natDigits]
  set ds := padZeros (natDigits a) (e + 1) with hdsdef
  by_cases he : e = 0
  · subst he
    obtain ⟨x, t, hxt, hx⟩ := digits_head ds hdsn hds
    unfold bodyChars
    rw [← hdsdef]
    simp only [if_pos rfl]
    rw [hxt]
    simp only [List.cons_append, parseNumAfterSign, hx, if_pos]
    rw [← List.cons_append, ← hxt,
      parseDigits_spec ds rest 0 hds (fun c t h => (hb c t h).1)]
    match rest with
    | [] => simp [hdsv]
    | c :: t =>
      obtain ⟨h1, h2⟩ := hb c t rfl
      simp [hdsv, h2]
  · unfold bodyChars
    rw [← hdsdef]
    simp only [if_neg he]
    set A := ds.take (ds.length - e) with hA
    set B := ds.drop (ds.length - e) with hB
    have hAB : A ++ B = ds := List.take_append_drop _ _
    have hAd : ∀ c ∈ A, isDigitC c = true := fun c hc =>
      hds c (List.take_subset _ _ hc)
    have hBd : ∀ c ∈ B, isDigitC c = true := fun c hc =>
      hds c (List.drop_subset _ _ hc)
    have hAlen : A.length = ds.length - e := by
      rw [hA, List.length_take]
      omega
    have hBlen : B.length = e := by
      rw [hB, List.length_drop]
      omega
    have hAne : A ≠ [] := by
      intro hnil
      rw [hnil] at hAlen
      simp at hAlen
      omega
    have hBne : B ≠ [] := by
      intro hnil
      rw [hnil] at hBlen
      simp at hBlen
      omega
    obtain ⟨x, t, hxt, hx⟩ := digits_head A hAne hAd
    rw [hxt]
    simp only [List.cons_append, List.append_assoc, parseNumAfterSign, hx, if_pos]
    rw [← List.cons_append, ← hxt,
      parseDigits_spec A ('.' :: (B ++ rest)) 0 hAd
        (by intro c t h; cases h; decide)]
    obtain ⟨y, u, hyu, hy⟩ := digits_head B hBne hBd
    rw [hyu]
    simp only [List.cons_append]
    rw [← List.cons_append, ← hyu,
      parseDigits_spec B rest (digitsVal 0 A) hBd (fun c t h => (hb c t h).1)]
    have hval : digitsVal (digitsVal 0 A) B = a := by
      rw [← digitsVal_append, hAB, hdsv]
    simp [hy, hval, hBlen]

/-! ### String escape round-trip -/

theorem decodeHexDigit_digitChar (d : Nat) (h : d < 16) :
    decodeHexDigit (Nat.digitChar d) = some d := by
  interval_cases d <;> decide

theorem decodeHex4_hex4 (n : Nat) (h : n < 65536) :
    (match hex4 n with
     | [a, b, c, d] => decodeHex4 a b c d
     | _ => none) = some n := by
  simp only [hex4]
  rw [decodeHex4]
  rw [decodeHexDigit_digitChar _ (Nat.mod_lt _ (by omega)),
    decodeHexDigit_digitChar _ (Nat.mod_lt _ (by omega)),
    decodeHexDigit_digitChar _ (Nat.mod_lt _ (by omega)),
    decodeHexDigit_digitChar _ (Nat.mod_lt _ (by omega))]
  simp only [Option.some.injEq]
  omega

theorem char_toNat_cases (c : Char) :
    c.toNat < 0xd800 ∨ (0xdfff < c.toNat ∧ c.toNat < 0x110000) := by
  rcases c.valid with h | ⟨h1, h2⟩
  · left; exact h
  · right; exact ⟨h1, h2⟩

theorem decodeOne_u (s : List Char) : decodeOne ('\\' :: 'u' :: s) = decodeUHex s := by
  simp [decodeOne]

theorem decodeUHex_plain (n : Nat) (hn : n < 65536)
    (hns : ¬(0xd800 ≤ n ∧ n ≤ 0xdbff)) (hns2 : ¬(0xdc00 ≤ n ∧ n ≤ 0xdfff))
    (rest : List Char) :
    decodeUHex (hex4 n ++ rest) = some (Char.ofNat n, rest) := by
  have hh := decodeHex4_hex4 n hn
  simp only [hex4] at hh
  simp only [hex4, List.cons_append, List.nil_append, decodeUHex]
  rw [hh]
  simp [hns, hns2]

theorem decodeUHex_sur (n : Nat) (hn : n < 65536) (hs : 0xd800 ≤ n ∧ n ≤ 0xdbff)
    (rest : List Char) :
    decodeUHex (hex4 n ++ rest) = combineSurrogate n rest := by
  have hh := decodeHex4_hex4 n hn
  simp only [hex4] at hh
  simp only [hex4, List.cons_append, List.nil_append, decodeUHex]
  rw [hh]
  simp [hs]

theorem combineSurrogate_spec (n k : Nat) (hk : k < 65536)
    (hks : 0xdc00 ≤ k ∧ k ≤ 0xdfff) (rest : List Char) :
    combineSurrogate n ('\\' :: 'u' :: (hex4 k ++ rest)) =
      some (Char.ofNat (0x10000 + (n - 0xd800) * 0x400 + (k - 0xdc00)), rest) := by
  have hh := decodeHex4_hex4 k hk
  simp only [hex4] at hh
  simp only [hex4, List.cons_append, List.nil_append, combineSurrogate]
  rw [hh]
  simp [hks]

theorem decodeOne_escapeChar (c : Char) (rest : List Char) :
    decodeOne (escapeChar c ++ rest) = some (c, rest) := by
  unfold escapeChar
  split_ifs with h1 h2 h3 h4 h5 h6 h7 h8 h9
  · subst h1; simp [decodeOne, decodeEsc]
  · subst h2; simp [decodeOne, decodeEsc]
  · subst h3; simp [decodeOne, decodeEsc]
  · subst h4; simp [decodeOne, decodeEsc]
  · subst h5; simp [decodeOne, decodeEsc]
  · subst h6; simp [decodeOne, decodeEsc]
  · subst h7; simp [decodeOne, decodeEsc]
  · -- printable ASCII other than quote and backslash: raw character
    simp [decodeOne, h1, h2]
  · -- BMP character escaped as one \uXXXX group
    have hv := char_toNat_cases c
    have hsur : ¬(0xd800 ≤ c.toNat ∧ c.toNat ≤ 0xdbff) := by omega
    have hsur2 : ¬(0xdc00 ≤ c.toNat ∧ c.toNat ≤ 0xdfff) := by omega
    simp only [List.cons_append]
    rw [decodeOne_u, decodeUHex_plain c.toNat (by omega) hsur hsur2,
      Char.ofNat_toNat]
  · -- astral character escaped as a surrogate pair
    have hv := char_toNat_cases c
    have hge : 0x10000 ≤ c.toNat := by omega
    have hlt : c.toNat < 0x110000 := by omega
    have hhiv : 0xd800 + (c.toNat - 0x10000) / 0x400 < 65536 := by omega
    have hlov : 0xdc00 + (c.toNat - 0x10000) % 0x400 < 65536 := by omega
    have hhir : 0xd800 ≤ 0xd800 + (c.toNat - 0x10000) / 0x400 ∧
        0xd800 + (c.toNat - 0x10000) / 0x400 ≤ 0xdbff := by omega
    have hlor : 0xdc00 ≤ 0xdc00 + (c.toNat - 0x10000) % 0x400 ∧
        0xdc00 + (c.toNat - 0x10000) % 0x400 ≤ 0xdfff := by omega
    have harith : 0x10000 + (0xd800 + (c.toNat - 0x10000) / 0x400 - 0xd800) * 0x400 +
        (0xdc00 + (c.toNat - 0x10000) % 0x400 - 0xdc00) = c.toNat := by omega
    simp only [List.cons_append, List.append_assoc]
    rw [decodeOne_u, decodeUHex_sur _ hhiv hhir,
      combineSurrogate_spec _ _ hlov hlor, harith, Char.ofNat_toNat]

theorem escapeChar_head (c : Char) :
    ∃ x t, escapeChar c = x :: t ∧ x ≠ '"' := by
  unfold escapeChar
  split_ifs with h1 h2 h3 h4 h5 h6 h7 h8 h9
  all_goals first
    | exact ⟨'\\', _, rfl, by decide⟩
    | exact ⟨c, [], rfl, h1⟩

theorem parseStringBody_encodeStr (s : List Char) (rest : List Char) :
    parseStringBody (encodeStr s ++ '"' :: rest) = some (s, rest) := by
  induction s with
  | nil => simp [encodeStr, parseStringBody]
  | cons c cs ih =>
    obtain ⟨x, t, hxt, hx⟩ := escapeChar_head c
    have hdec : decodeOne (escapeChar c ++ (encodeStr cs ++ '"' :: rest)) =
        some (c, encodeStr cs ++ '"' :: rest) := decodeOne_escapeChar c _
    simp only [encodeStr, List.append_assoc]
    rw [hxt] at hdec ⊢
    simp only [List.cons_append] at hdec ⊢
    rw [parseStringBody, if_neg hx]
    split
    · rename_i ch r heq
      rw [hdec] at heq
      obtain ⟨h1, h2⟩ : ch = c ∧ r = encodeStr cs ++ '"' :: rest := by
        simpa using heq.symm
      subst h1
      subst h2
      rw [ih]
      rfl
    · rename_i heq
      rw [hdec] at heq
      exact absurd heq (by simp)

/-! ### Whitespace lemmas and whitespace-invariance of the readers -/

theorem skipWs_cons_of_not_ws {c : Char} (s : List Char) (h : isWs c = false) :
    skipWs (c :: s) = c :: s := by
  simp [skipWs, h]

theorem skipWs_append (ws s : List Char) (h : ∀ c ∈ ws, isWs c = true) :
    skipWs (ws ++ s) = skipWs s := by
  induction ws with
  | nil => simp
  | cons c t ih =>
    have hc := h c (by simp)
    simp only [List.cons_append, skipWs, hc, if_pos]
    exact ih fun x hx => h x (by simp [hx])

theorem parseValue_ws (fuel : Nat) (ws s : List Char)
    (h : ∀ c ∈ ws, isWs c = true) :
    parseValue fuel (ws ++ s) = parseValue fuel s := by
  match fuel with
  | 0 => rfl
  | fuel + 1 =>
    show (match skipWs (ws ++ s) with
      | [] => none
      | c :: r => _) = _
    rw [skipWs_append ws s h]
    rfl

theorem parseItems_ws (fuel : Nat) (ws s : List Char)
    (h : ∀ c ∈ ws, isWs c = true) :
    parseItems fuel (ws ++ s) = parseItems fuel s := by
  match fuel with
  | 0 => rfl
  | fuel + 1 =>
    show (match parseValue fuel (ws ++ s) with
      | none => none
      | some (v, r) => _) = _
    rw [parseValue_ws fuel ws s h]
    rfl

theorem parseMembers_ws (fuel : Nat) (ws s : List Char)
    (h : ∀ c ∈ ws, isWs c = true) :
    parseMembers fuel (ws ++ s) = parseMembers fuel s := by
  match fuel with
  | 0 => rfl
  | fuel + 1 =>
    show (match skipWs (ws ++ s) with
      | [] => none
      | c :: r => _) = _
    rw [skipWs_append ws s h]
    rfl

theorem ws_indent (n : Nat) :
    ∀ c ∈ '\n' :: List.replicate n ' ', isWs c = true := by
  intro c hc
  rcases List.mem_cons.mp hc with h | h
  · subst h; decide
  · have := List.eq_of_mem_replicate h
    subst this; decide

/-! ### Head shape of serialized values -/

theorem isDigitC_facts {c : Char} (h : isDigitC c = true) :
    isWs c = false ∧ c ≠ ']' ∧ c ≠ '\x7d' ∧ c ≠ ',' ∧ c ≠ '"' ∧ c ≠ '-' ∧
      c ≠ 'n' ∧ c ≠ 't' ∧ c ≠ 'f' ∧ c ≠ '[' ∧ c ≠ '\x7b' ∧ c ≠ '.' ∧
      c ≠ ':' := by
  refine ⟨?_, ?_, ?_, ?_, ?_, ?_, ?_, ?_, ?_, ?_, ?_, ?_, ?_⟩
  · by_contra hw
    simp only [Bool.not_eq_false, isWs] at hw
    rcases Bool.or_eq_true_iff.mp hw with hw | hw
    · rcases Bool.or_eq_true_iff.mp hw with hw | hw
      · rcases Bool.or_eq_true_iff.mp hw with hw | hw
        all_goals simp_all [decide_eq_true_eq]; subst hw; simp [isDigitC] at h
      · simp_all [decide_eq_true_eq]; subst hw; simp [isDigitC] at h
    · simp_all [decide_eq_true_eq]; subst hw; simp [isDigitC] at h
  all_goals intro hw
  all_goals subst hw
  all_goals simp [isDigitC] at h

theorem bodyChars_head (a e : Nat) :
    ∃ x t, bodyChars a e = x :: t ∧ isDigitC x = true := by
  have hds := padZeros_digits (natDigits a) (e + 1) (natDigits_digits a)
  have hdsn := padZeros_ne_nil (natDigits a) (e + 1) (natDigits_ne_nil a)
  have hdsl := padZeros_length (natDigits a) (e + 1)
  obtain ⟨x, t, hxt, hx⟩ := digits_head _ hdsn hds
  by_cases he : e = 0
  · subst he
    exact ⟨x, t, by simp [bodyChars, hxt], hx⟩
  · have hle : e ≤ t.length := by
      rw [hxt] at hdsl
      simp at hdsl
      omega
    refine ⟨x, t.take (t.length - e) ++ '.' :: t.drop (t.length - e), ?_, hx⟩
    simp only [bodyChars, if_neg he]
    rw [hxt]
    have h1 : (x :: t).length - e = (t.length - e) + 1 := by
      simp
      omega
    rw [h1, List.take_succ_cons, List.drop_succ_cons]
    simp

theorem dumpsV_head (ind : Nat) (v : Json) :
    ∃ x t, dumpsV ind v = x :: t ∧ isWs x = false ∧ x ≠ ']' ∧ x ≠ '\x7d' ∧
      x ≠ ',' := by
  match v with
  | .null => exact ⟨'n', _, rfl, by decide, by decide, by decide, by decide⟩
  | .bool true => exact ⟨'t', _, rfl, by decide, by decide, by decide, by decide⟩
  | .bool false => exact ⟨'f', _, rfl, by decide, by decide, by decide, by decide⟩
  | .str s => exact ⟨'"', _, rfl, by decide, by decide, by decide, by decide⟩
  | .arr [] => exact ⟨'[', _, rfl, by decide, by decide, by decide, by decide⟩
  | .arr (x :: xs) =>
    exact ⟨'[', _, rfl, by decide, by decide, by decide, by decide⟩
  | .obj [] => exact ⟨'\x7b', _, rfl, by decide, by decide, by decide, by decide⟩
  | .obj (kv :: kvs) =>
    exact ⟨'\x7b', _, rfl, by decide, by decide, by decide, by decide⟩
  | .num m e =>
    obtain ⟨x, t, hxt, hx⟩ := bodyChars_head m.natAbs e
    have hf := isDigitC_facts hx
    by_cases hm : m < 0
    · refine ⟨'-', bodyChars m.natAbs e, ?_, by decide, by decide,
        by decide, by decide⟩
      simp [dumpsV, numChars, hm]
    · refine ⟨x, t, ?_, hf.1, hf.2.1, hf.2.2.1, hf.2.2.2.1⟩
      simp [dumpsV, numChars, hm, hxt]

/-- One unfolding of `parseValue` when the head character is not
whitespace. -/
theorem parseValue_step (fuel : Nat) (c : Char) (r : List Char) (hw : isWs c = false) :
    parseValue (fuel + 1) (c :: r) =
      (if c = '"' then (parseStringBody r).map (fun p => (Json.str (String.mk p.1), p.2))
      else if c = '-' then parseNumAfterSign true r
      else if isDigitC c then parseNumAfterSign false (c :: r)
      else if c = 'n' then
        match stripList ['u', 'l', 'l'] r with
        | some r2 => some (Json.null, r2)
        | none => none
      else if c = 't' then
        match stripList ['r', 'u', 'e'] r with
        | some r2 => some (Json.bool true, r2)
        | none => none
      else if c = 'f' then
        match stripList ['a', 'l', 's', 'e'] r with
        | some r2 => some (Json.bool false, r2)
        | none => none
      else if c = '[' then
        match skipWs r with
        | [] => none
        | x :: r2 =>
          if x = ']' then some (Json.arr [], r2)
          else (parseItems fuel r).map (fun p => (Json.arr p.1, p.2))
      else if c = '\x7b' then
        match skipWs r with
        | [] => none
        | x :: r2 =>
          if x = '\x7d' then some (Json.obj [], r2)
          else (parseMembers fuel r).map (fun p => (Json.obj p.1, p.2))
      else none) := by
  rw [parseValue, skipWs_cons_of_not_ws _ hw]

/-- A serialized value never starts with whitespace, so `skipWs` is the
identity in front of it. -/
theorem skipWs_dumpsV (ind : Nat) (v : Json) (R : List Char) :
    skipWs (dumpsV ind v ++ R) = dumpsV ind v ++ R := by
  obtain ⟨y, t, hyt, hyw, _, _, _⟩ := dumpsV_head ind v
  rw [hyt, List.cons_append, skipWs_cons_of_not_ws _ hyw, ← List.cons_append, ← hyt]

theorem skipWs_ws_cons (ws : List Char) (c : Char) (rest : List Char)
    (h : ∀ x ∈ ws, isWs x = true) (hc : isWs c = false) :
    skipWs (ws ++ c :: rest) = c :: rest := by
  rw [skipWs_append _ _ h, skipWs_cons_of_not_ws _ hc]

theorem isWs_facts {c : Char} (h : isWs c = true) :
    isDigitC c = false ∧ c ≠ '.' := by
  simp only [isWs, Bool.or_eq_true, decide_eq_true_eq] at h
  rcases h with ((h | h) | h) | h <;> subst h <;> exact ⟨by decide, by decide⟩

theorem numBoundary_ws_cons (ws : List Char) (c0 : Char) (rest : List Char)
    (hws : ∀ x ∈ ws, isWs x = true) (h1 : isDigitC c0 = false) (h2 : c0 ≠ '.') :
    numBoundary (ws ++ c0 :: rest) := by
  intro c t h
  match ws, h with
  | [], h =>
    injection h with hc ht
    subst hc
    exact ⟨h1, h2⟩
  | w :: ws2, h =>
    rw [List.cons_append] at h
    injection h with hc ht
    subst hc
    exact isWs_facts (hws w (by simp))

/-- What follows a serialized array item is a numeric boundary. -/
theorem numBoundary_dumpsItems (ind : Nat) (xs : List Json) (ws : List Char)
    (c0 : Char) (rest : List Char) (hws : ∀ x ∈ ws, isWs x = true)
    (h1 : isDigitC c0 = false) (h2 : c0 ≠ '.') :
    numBoundary (dumpsItems ind xs ++ (ws ++ c0 :: rest)) := by
  match xs with
  | [] =>
    simp only [dumpsItems, List.nil_append]
    exact numBoundary_ws_cons ws c0 rest hws h1 h2
  | y :: ys =>
    intro c t h
    simp only [dumpsItems, List.cons_append] at h
    injection h with hc ht
    subst hc
    exact ⟨by decide, by decide⟩

/-- What follows a serialized object member is a numeric boundary. -/
theorem numBoundary_dumpsMembers (ind : Nat) (kvs : List (String × Json))
    (ws : List Char) (c0 : Char) (rest : List Char)
    (hws : ∀ x ∈ ws, isWs x = true)
    (h1 : isDigitC c0 = false) (h2 : c0 ≠ '.') :
    numBoundary (dumpsMembers ind kvs ++ (ws ++ c0 :: rest)) := by
  match kvs with
  | [] =>
    simp only [dumpsMembers, List.nil_append]
    exact numBoundary_ws_cons ws c0 rest hws h1 h2
  | kv :: kvs2 =>
    intro c t h
    simp only [dumpsMembers, List.cons_append] at h
    injection h with hc ht
    subst hc
    exact ⟨by decide, by decide⟩

/-! ### Fuel adequacy -/

theorem sizeJ_pos (v : Json) : 1 ≤ sizeJ v := by
  match v with
  | .null | .bool _ | .num _ _ | .str _ => simp [sizeJ]
  | .arr xs => simp [sizeJ]
  | .obj kvs => simp [sizeJ]

mutual

theorem sizeJ_le : ∀ (ind : Nat) (v : Json), sizeJ v ≤ (dumpsV ind v).length
  | _, .null => by simp [sizeJ, dumpsV]
  | _, .bool true => by simp [sizeJ, dumpsV]
  | _, .bool false => by simp [sizeJ, dumpsV]
  | _, .num m e => by
    obtain ⟨x, t, hxt, _⟩ := bodyChars_head m.natAbs e
    simp only [sizeJ, dumpsV, numChars]
    split <;> simp [hxt]
  | _, .str s => by simp [sizeJ, dumpsV, strLit]
  | _, .arr [] => by simp [sizeJ, dumpsV, sizeL]
  | ind, .arr (x :: xs) => by
    have h1 := sizeJ_le (ind + 4) x
    have h2 := sizeL_le (ind + 4) xs
    simp only [sizeJ, sizeL, dumpsV]
    simp
    omega
  | _, .obj [] => by simp [sizeJ, dumpsV, sizeM]
  | ind, .obj (kv :: kvs) => by
    have h1 := sizeJ_le (ind + 4) kv.2
    have h2 := sizeM_le (ind + 4) kvs
    simp only [sizeJ, sizeM, dumpsV]
    simp
    omega

theorem sizeL_le : ∀ (ind : Nat) (xs : List Json),
    sizeL xs ≤ (dumpsItems ind xs).length + 1
  | _, [] => by simp [sizeL, dumpsItems]
  | ind, x :: xs => by
    have h1 := sizeJ_le ind x
    have h2 := sizeL_le ind xs
    simp only [sizeL, dumpsItems]
    simp
    omega

theorem sizeM_le : ∀ (ind : Nat) (kvs : List (String × Json)),
    sizeM kvs ≤ (dumpsMembers ind kvs).length + 1
  | _, [] => by simp [sizeM, dumpsMembers]
  | ind, kv :: kvs => by
    have h1 := sizeJ_le ind kv.2
    have h2 := sizeM_le ind kvs
    simp only [sizeM, dumpsMembers]
    simp
    omega

end

/-! ### The round-trip induction -/

/-- Round-trip property of `parseValue` at a given fuel. -/
def PropP (fuel : Nat) : Prop :=
  ∀ (v : Json) (ind : Nat) (rest : List Char), sizeJ v ≤ fuel → numBoundary rest →
    parseValue fuel (dumpsV ind v ++ rest) = some (v, rest)

/-- Round-trip property of `parseItems` at a given fuel. -/
def PropQ (fuel : Nat) : Prop :=
  ∀ (x : Json) (xs : List Json) (ind : Nat) (ws rest : List Char),
    sizeL (x :: xs) ≤ fuel → (∀ c ∈ ws, isWs c = true) →
    parseItems fuel (dumpsV ind x ++ (dumpsItems ind xs ++ (ws ++ ']' :: rest))) =
      some (x :: xs, rest)

/-- Round-trip property of `parseMembers` at a given fuel. -/
def PropR (fuel : Nat) : Prop :=
  ∀ (k : String) (v : Json) (kvs : List (String × Json)) (ind : Nat)
    (ws rest : List Char),
    sizeM ((k, v) :: kvs) ≤ fuel → (∀ c ∈ ws, isWs c = true) →
    parseMembers fuel
        (strLit k ++ ':' :: ' ' :: (dumpsV ind v ++ (dumpsMembers ind kvs ++ (ws ++ '\x7d' :: rest)))) =
      some ((k, v) :: kvs, rest)

theorem stepP_null (fuel ind : Nat) (rest : List Char) :
    parseValue (fuel + 1) (dumpsV ind .null ++ rest) = some (.null, rest) := by
  show parseValue (fuel + 1) ('n' :: 'u' :: 'l' :: 'l' :: rest) = some (.null, rest)
  rw [parseValue_step _ _ _ (by decide)]
  simp [stripList, isDigitC]

theorem stepP_boolT (fuel ind : Nat) (rest : List Char) :
    parseValue (fuel + 1) (dumpsV ind (.bool true) ++ rest) =
      some (.bool true, rest) := by
  show parseValue (fuel + 1) ('t' :: 'r' :: 'u' :: 'e' :: rest) = some (.bool true, rest)
  rw [parseValue_step _ _ _ (by decide)]
  simp [stripList, isDigitC]

theorem stepP_boolF (fuel ind : Nat) (rest : List Char) :
    parseValue (fuel + 1) (dumpsV ind (.bool false) ++ rest) =
      some (.bool false, rest) := by
  show parseValue (fuel + 1) ('f' :: 'a' :: 'l' :: 's' :: 'e' :: rest) =
    some (.bool false, rest)
  rw [parseValue_step _ _ _ (by decide)]
  simp [stripList, isDigitC]

theorem stepP_str (fuel ind : Nat) (s : String) (rest : List Char) :
    parseValue (fuel + 1) (dumpsV ind (.str s) ++ rest) = some (.str s, rest) := by
  show parseValue (fuel + 1) ('"' :: ((encodeStr s.data ++ ['"']) ++ rest)) =
    some (.str s, rest)
  rw [parseValue_step _ _ _ (by decide), if_pos rfl]
  rw [show (encodeStr s.data ++ ['"']) ++ rest = encodeStr s.data ++ '"' :: rest from
    by simp]
  rw [parseStringBody_encodeStr]
  rfl

theorem stepP_num (fuel ind : Nat) (m : Int) (e : Nat) (rest : List Char)
    (hb : numBoundary rest) :
    parseValue (fuel + 1) (dumpsV ind (.num m e) ++ rest) = some (.num m e, rest) := by
  rw [show dumpsV ind (.num m e) = numChars m e from rfl]
  unfold numChars
  by_cases hm : m < 0
  · have hmm : -((m.natAbs : Int)) = m := by omega
    rw [if_pos hm, List.cons_append, parseValue_step _ _ _ (by decide)]
    rw [if_neg (by decide), if_pos rfl, parseNumAfterSign_body m.natAbs e true rest hb]
    simp [hmm, abs_of_neg hm]
  · have hmm : ((m.natAbs : Int)) = m := by omega
    obtain ⟨x, t, hxt, hx⟩ := bodyChars_head m.natAbs e
    have hf := isDigitC_facts hx
    rw [if_neg hm, hxt, List.cons_append, parseValue_step _ _ _ hf.1]
    rw [if_neg hf.2.2.2.2.1, if_neg hf.2.2.2.2.2.1, if_pos hx]
    rw [← List.cons_append, ← hxt, parseNumAfterSign_body m.natAbs e false rest hb]
    simp [hmm]

theorem stepP_arrNil (fuel ind : Nat) (rest : List Char) :
    parseValue (fuel + 1) (dumpsV ind (.arr []) ++ rest) = some (.arr [], rest) := by
  show parseValue (fuel + 1) ('[' :: ']' :: rest) = some (.arr [], rest)
  rw [parseValue_step _ _ _ (by decide)]
  simp [isDigitC, skipWs, isWs]

theorem stepP_objNil (fuel ind : Nat) (rest : List Char) :
    parseValue (fuel + 1) (dumpsV ind (.obj []) ++ rest) = some (.obj [], rest) := by
  show parseValue (fuel + 1) ('\x7b' :: '\x7d' :: rest) = some (.obj [], rest)
  rw [parseValue_step _ _ _ (by decide)]
  simp [isDigitC, skipWs, isWs]

theorem stepP_arrCons (fuel : Nat) (hQ : PropQ fuel) (x : Json) (xs : List Json)
    (ind : Nat) (rest : List Char) (hsz : sizeJ (.arr (x :: xs)) ≤ fuel + 1) :
    parseValue (fuel + 1) (dumpsV ind (.arr (x :: xs)) ++ rest) =
      some (.arr (x :: xs), rest) := by
  have hsz2 : sizeL (x :: xs) ≤ fuel := by
    simp [sizeJ] at hsz
    omega
  have happ := hQ x xs (ind + 4) ('\n' :: List.replicate ind ' ') rest hsz2 (ws_indent ind)
  simp only [List.cons_append, List.append_assoc] at happ
  rw [show dumpsV ind (.arr (x :: xs)) =
    '[' :: '\n' :: (List.replicate (ind + 4) ' ' ++ dumpsV (ind + 4) x ++
      dumpsItems (ind + 4) xs ++ '\n' :: (List.replicate ind ' ' ++ [']'])) from rfl]
  simp only [List.cons_append, List.append_assoc, List.nil_append]
  rw [parseValue_step _ _ _ (by decide)]
  rw [if_neg (by decide), if_neg (by decide), if_neg (by decide), if_neg (by decide),
    if_neg (by decide), if_neg (by decide), if_pos rfl]
  have hsw : skipWs ('\n' :: (List.replicate (ind + 4) ' ' ++ (dumpsV (ind + 4) x ++
      (dumpsItems (ind + 4) xs ++ ('\n' :: (List.replicate ind ' ' ++ (']' :: rest))))))) =
      dumpsV (ind + 4) x ++ (dumpsItems (ind + 4) xs ++
        ('\n' :: (List.replicate ind ' ' ++ (']' :: rest)))) := by
    rw [show ('\n' :: (List.replicate (ind + 4) ' ' ++ (dumpsV (ind + 4) x ++
        (dumpsItems (ind + 4) xs ++ ('\n' :: (List.replicate ind ' ' ++ (']' :: rest))))))) =
      ('\n' :: List.replicate (ind + 4) ' ') ++ (dumpsV (ind + 4) x ++
        (dumpsItems (ind + 4) xs ++ ('\n' :: (List.replicate ind ' ' ++ (']' :: rest)))))
      from by simp]
    rw [skipWs_append _ _ (ws_indent _), skipWs_dumpsV]
  rw [hsw]
  have hpi : parseItems fuel ('\n' :: (List.replicate (ind + 4) ' ' ++ (dumpsV (ind + 4) x ++
      (dumpsItems (ind + 4) xs ++ ('\n' :: (List.replicate ind ' ' ++ (']' :: rest))))))) =
      some (x :: xs, rest) := by
    rw [show ('\n' :: (List.replicate (ind + 4) ' ' ++ (dumpsV (ind + 4) x ++
        (dumpsItems (ind + 4) xs ++ ('\n' :: (List.replicate ind ' ' ++ (']' :: rest))))))) =
      ('\n' :: List.replicate (ind + 4) ' ') ++ (dumpsV (ind + 4) x ++
        (dumpsItems (ind + 4) xs ++ ('\n' :: (List.replicate ind ' ' ++ (']' :: rest)))))
      from by simp]
    rw [parseItems_ws _ _ _ (ws_indent _)]
    exact happ
  obtain ⟨y, t, hyt, hyw, hyne, _, _⟩ := dumpsV_head (ind + 4) x
  rw [hyt, List.cons_append]
  split <;> simp_all [hpi]

/-- A serialized string literal starts with a quote, so `skipWs` leaves
it alone. -/
theorem skipWs_strLit (k : String) (R : List Char) :
    skipWs (strLit k ++ R) = strLit k ++ R := by
  show skipWs ('"' :: ((encodeStr k.data ++ ['"']) ++ R)) =
    '"' :: ((encodeStr k.data ++ ['"']) ++ R)
  exact skipWs_cons_of_not_ws _ (by decide)

theorem stepP_objCons (fuel : Nat) (hR : PropR fuel) (kv : String × Json)
    (kvs : List (String × Json)) (ind : Nat) (rest : List Char)
    (hsz : sizeJ (.obj (kv :: kvs)) ≤ fuel + 1) :
    parseValue (fuel + 1) (dumpsV ind (.obj (kv :: kvs)) ++ rest) =
      some (.obj (kv :: kvs), rest) := by
  have hsz2 : sizeM ((kv.1, kv.2) :: kvs) ≤ fuel := by
    simp [sizeJ, sizeM] at hsz ⊢
    omega
  have happ := hR kv.1 kv.2 kvs (ind + 4) ('\n' :: List.replicate ind ' ') rest hsz2
    (ws_indent ind)
  simp only [List.cons_append, List.append_assoc] at happ
  rw [show dumpsV ind (.obj (kv :: kvs)) =
    '\x7b' :: '\n' :: (List.replicate (ind + 4) ' ' ++ strLit kv.1 ++
      ':' :: ' ' :: dumpsV (ind + 4) kv.2 ++
      dumpsMembers (ind + 4) kvs ++ '\n' :: (List.replicate ind ' ' ++ ['\x7d'])) from rfl]
  simp only [List.cons_append, List.append_assoc, List.nil_append]
  rw [parseValue_step _ _ _ (by decide)]
  rw [if_neg (by decide), if_neg (by decide), if_neg (by decide), if_neg (by decide),
    if_neg (by decide), if_neg (by decide), if_neg (by decide), if_pos rfl]
  have hsw : skipWs ('\n' :: (List.replicate (ind + 4) ' ' ++ (strLit kv.1 ++
      (':' :: ' ' :: (dumpsV (ind + 4) kv.2 ++ (dumpsMembers (ind + 4) kvs ++
        ('\n' :: (List.replicate ind ' ' ++ ('\x7d' :: rest))))))))) =
      strLit kv.1 ++ (':' :: ' ' :: (dumpsV (ind + 4) kv.2 ++
        (dumpsMembers (ind + 4) kvs ++
          ('\n' :: (List.replicate ind ' ' ++ ('\x7d' :: rest)))))) := by
    rw [show ('\n' :: (List.replicate (ind + 4) ' ' ++ (strLit kv.1 ++
        (':' :: ' ' :: (dumpsV (ind + 4) kv.2 ++ (dumpsMembers (ind + 4) kvs ++
          ('\n' :: (List.replicate ind ' ' ++ ('\x7d' :: rest))))))))) =
      ('\n' :: List.replicate (ind + 4) ' ') ++ (strLit kv.1 ++
        (':' :: ' ' :: (dumpsV (ind + 4) kv.2 ++ (dumpsMembers (ind + 4) kvs ++
          ('\n' :: (List.replicate ind ' ' ++ ('\x7d' :: rest))))))) from by simp]
    rw [skipWs_append _ _ (ws_indent _), skipWs_strLit]
  rw [hsw]
  have hpm : parseMembers fuel ('\n' :: (List.replicate (ind + 4) ' ' ++ (strLit kv.1 ++
      (':' :: ' ' :: (dumpsV (ind + 4) kv.2 ++ (dumpsMembers (ind + 4) kvs ++
        ('\n' :: (List.replicate ind ' ' ++ ('\x7d' :: rest))))))))) =
      some ((kv.1, kv.2) :: kvs, rest) := by
    rw [show ('\n' :: (List.replicate (ind + 4) ' ' ++ (strLit kv.1 ++
        (':' :: ' ' :: (dumpsV (ind + 4) kv.2 ++ (dumpsMembers (ind + 4) kvs ++
          ('\n' :: (List.replicate ind ' ' ++ ('\x7d' :: rest))))))))) =
      ('\n' :: List.replicate (ind + 4) ' ') ++ (strLit kv.1 ++
        (':' :: ' ' :: (dumpsV (ind + 4) kv.2 ++ (dumpsMembers (ind + 4) kvs ++
          ('\n' :: (List.replicate ind ' ' ++ ('\x7d' :: rest))))))) from by simp]
    rw [parseMembers_ws _ _ _ (ws_indent _)]
    exact happ
  rw [show strLit kv.1 ++ (':' :: ' ' :: (dumpsV (ind + 4) kv.2 ++
      (dumpsMembers (ind + 4) kvs ++
        ('\n' :: (List.replicate ind ' ' ++ ('\x7d' :: rest)))))) =
    '"' :: ((encodeStr kv.1.data ++ ['"']) ++
      (':' :: ' ' :: (dumpsV (ind + 4) kv.2 ++ (dumpsMembers (ind + 4) kvs ++
        ('\n' :: (List.replicate ind ' ' ++ ('\x7d' :: rest))))))) from rfl] at hpm ⊢
  split
  · rename_i heq
    exact absurd heq (by simp)
  · rename_i y r2 heq
    injection heq with h1 h2
    subst h1
    subst h2
    rw [if_neg (by decide), hpm]
    rfl

theorem stepQ (fuel : Nat) (hP : PropP fuel) (hQ : PropQ fuel) : PropQ (fuel + 1) := by
  intro x xs ind ws rest hsz hws
  have hb : numBoundary (dumpsItems ind xs ++ (ws ++ ']' :: rest)) :=
    numBoundary_dumpsItems ind xs ws ']' rest hws (by decide) (by decide)
  have hszx : sizeJ x ≤ fuel := by
    simp [sizeL] at hsz
    omega
  have hv := hP x ind (dumpsItems ind xs ++ (ws ++ ']' :: rest)) hszx hb
  cases xs with
  | nil =>
    simp only [dumpsItems, List.nil_append] at hv ⊢
    have hsw := skipWs_ws_cons ws ']' rest hws (show isWs ']' = false by decide)
    rw [parseItems, hv]
    simp [hsw]
  | cons y ys =>
    have hszy : sizeL (y :: ys) ≤ fuel := by
      have hx1 := sizeJ_pos x
      simp [sizeL] at hsz ⊢
      omega
    have hre : dumpsItems ind (y :: ys) ++ (ws ++ ']' :: rest) =
        ',' :: '\n' :: (List.replicate ind ' ' ++ (dumpsV ind y ++
          (dumpsItems ind ys ++ (ws ++ ']' :: rest)))) := by
      simp [dumpsItems]
    have hpi2 : parseItems fuel ('\n' :: (List.replicate ind ' ' ++ (dumpsV ind y ++
        (dumpsItems ind ys ++ (ws ++ ']' :: rest))))) = some (y :: ys, rest) := by
      rw [show ('\n' :: (List.replicate ind ' ' ++ (dumpsV ind y ++
          (dumpsItems ind ys ++ (ws ++ ']' :: rest))))) =
        ('\n' :: List.replicate ind ' ') ++ (dumpsV ind y ++
          (dumpsItems ind ys ++ (ws ++ ']' :: rest))) from by simp]
      rw [parseItems_ws _ _ _ (ws_indent ind)]
      exact hQ y ys ind ws rest hszy hws
    rw [parseItems, hv, hre]
    have hsw2 := skipWs_cons_of_not_ws
      ('\n' :: (List.replicate ind ' ' ++ (dumpsV ind y ++
        (dumpsItems ind ys ++ (ws ++ ']' :: rest)))))
      (show isWs ',' = false by decide)
    simp [hsw2, hpi2]

theorem stepR (fuel : Nat) (hP : PropP fuel) (hR : PropR fuel) : PropR (fuel + 1) := by
  intro k v kvs ind ws rest hsz hws
  have hb : numBoundary (dumpsMembers ind kvs ++ (ws ++ '\x7d' :: rest)) :=
    numBoundary_dumpsMembers ind kvs ws '\x7d' rest hws (by decide) (by decide)
  have hszv : sizeJ v ≤ fuel := by
    simp [sizeM] at hsz
    omega
  have hv := hP v ind (dumpsMembers ind kvs ++ (ws ++ '\x7d' :: rest)) hszv hb
  have hval : parseValue fuel (' ' :: (dumpsV ind v ++ (dumpsMembers ind kvs ++
      (ws ++ '\x7d' :: rest)))) =
      some (v, dumpsMembers ind kvs ++ (ws ++ '\x7d' :: rest)) := by
    rw [show (' ' :: (dumpsV ind v ++ (dumpsMembers ind kvs ++ (ws ++ '\x7d' :: rest)))) =
      [' '] ++ (dumpsV ind v ++ (dumpsMembers ind kvs ++ (ws ++ '\x7d' :: rest)))
      from rfl]
    rw [parseValue_ws _ _ _ (by intro c hc; simp at hc; subst hc; rfl)]
    exact hv
  have hstr := parseStringBody_encodeStr k.data
    (':' :: ' ' :: (dumpsV ind v ++ (dumpsMembers ind kvs ++ (ws ++ '\x7d' :: rest))))
  rw [show (strLit k ++ ':' :: ' ' :: (dumpsV ind v ++ (dumpsMembers ind kvs ++
      (ws ++ '\x7d' :: rest)))) =
    '"' :: (encodeStr k.data ++ '"' :: (':' :: ' ' :: (dumpsV ind v ++
      (dumpsMembers ind kvs ++ (ws ++ '\x7d' :: rest))))) from by simp [strLit]]
  rw [parseMembers, skipWs_cons_of_not_ws _ (show isWs '"' = false by decide)]
  -- the match sees a quote: take the string branch and run the body reader
  split
  · rename_i heq
    exact absurd heq (by simp)
  · rename_i c r heq
    injection heq with h1 h2
    subst h1
    subst h2
    rw [if_pos rfl, hstr]
    have hcol : skipWs (':' :: ' ' :: (dumpsV ind v ++ (dumpsMembers ind kvs ++
        (ws ++ '\x7d' :: rest)))) =
      ':' :: ' ' :: (dumpsV ind v ++ (dumpsMembers ind kvs ++ (ws ++ '\x7d' :: rest))) :=
      skipWs_cons_of_not_ws _ (by decide)
    cases kvs with
    | nil =>
      have hswE : skipWs (dumpsMembers ind ([] : List (String × Json)) ++
          (ws ++ '\x7d' :: rest)) = '\x7d' :: rest := by
        simp only [dumpsMembers, List.nil_append]
        exact skipWs_ws_cons ws _ rest hws (by decide)
      simp [hcol, hval, hswE]
    | cons kv2 kvs2 =>
      have hszm : sizeM ((kv2.1, kv2.2) :: kvs2) ≤ fuel := by
        have hv1 := sizeJ_pos v
        simp [sizeM] at hsz ⊢
        omega
      have hre : dumpsMembers ind (kv2 :: kvs2) ++ (ws ++ '\x7d' :: rest) =
          ',' :: '\n' :: (List.replicate ind ' ' ++ (strLit kv2.1 ++
            (':' :: ' ' :: (dumpsV ind kv2.2 ++ (dumpsMembers ind kvs2 ++
              (ws ++ '\x7d' :: rest)))))) := by
        simp [dumpsMembers]
      have hpm2 : parseMembers fuel ('\n' :: (List.replicate ind ' ' ++ (strLit kv2.1 ++
          (':' :: ' ' :: (dumpsV ind kv2.2 ++ (dumpsMembers ind kvs2 ++
            (ws ++ '\x7d' :: rest))))))) = some ((kv2.1, kv2.2) :: kvs2, rest) := by
        rw [show ('\n' :: (List.replicate ind ' ' ++ (strLit kv2.1 ++
            (':' :: ' ' :: (dumpsV ind kv2.2 ++ (dumpsMembers ind kvs2 ++
              (ws ++ '\x7d' :: rest))))))) =
          ('\n' :: List.replicate ind ' ') ++ (strLit kv2.1 ++
            (':' :: ' ' :: (dumpsV ind kv2.2 ++ (dumpsMembers ind kvs2 ++
              (ws ++ '\x7d' :: rest))))) from by simp]
        rw [parseMembers_ws _ _ _ (ws_indent ind)]
        exact hR kv2.1 kv2.2 kvs2 ind ws rest hszm hws
      have hsw3 : skipWs (',' :: '\n' :: (List.replicate ind ' ' ++ (strLit kv2.1 ++
          (':' :: ' ' :: (dumpsV ind kv2.2 ++ (dumpsMembers ind kvs2 ++
            (ws ++ '\x7d' :: rest))))))) =
        ',' :: '\n' :: (List.replicate ind ' ' ++ (strLit kv2.1 ++
          (':' :: ' ' :: (dumpsV ind kv2.2 ++ (dumpsMembers ind kvs2 ++
            (ws ++ '\x7d' :: rest)))))) := skipWs_cons_of_not_ws _ (by decide)
      rw [hre] at hval hcol ⊢
      simp [hcol, hval, hsw3, hpm2]

/-- The three round-trip properties hold at every fuel. -/
theorem parse_dumps_all (fuel : Nat) : PropP fuel ∧ PropQ fuel ∧ PropR fuel := by
  induction fuel with
  | zero =>
    refine ⟨?_, ?_, ?_⟩
    · intro v ind rest h _
      have := sizeJ_pos v
      omega
    · intro x xs ind ws rest h _
      simp [sizeL] at h
    · intro k v kvs ind ws rest h _
      simp [sizeM] at h
  | succ fuel ih =>
    obtain ⟨ihP, ihQ, ihR⟩ := ih
    refine ⟨?_, stepQ fuel ihP ihQ, stepR fuel ihP ihR⟩
    intro v ind rest hsz hb
    match v with
    | .null => exact stepP_null fuel ind rest
    | .bool true => exact stepP_boolT fuel ind rest
    | .bool false => exact stepP_boolF fuel ind rest
    | .num m e => exact stepP_num fuel ind m e rest hb
    | .str s => exact stepP_str fuel ind s rest
    | .arr [] => exact stepP_arrNil fuel ind rest
    | .arr (x :: xs) => exact stepP_arrCons fuel ihQ x xs ind rest hsz
    | .obj [] => exact stepP_objNil fuel ind rest
    | .obj (kv :: kvs) => exact stepP_objCons fuel ihR kv kvs ind rest hsz

/-- JSON output round-trips: reading back the serialized snapshot gives
the same structure. -/
theorem loads_dumps (v : Json) : loads (dumps v) = some v := by
  unfold loads dumps
  have hdata : (String.mk (dumpsV 0 v)).data = dumpsV 0 v := rfl
  rw [hdata]
  have hP := (parse_dumps_all ((dumpsV 0 v).length + 1)).1
  have hfuel : sizeJ v ≤ (dumpsV 0 v).length + 1 := by
    have := sizeJ_le 0 v
    omega
  have hrun := hP v 0 [] hfuel (by intro c t h; simp at h)
  rw [show dumpsV 0 v ++ ([] : List Char) = dumpsV 0 v from by simp] at hrun
  rw [hrun]
  simp [skipWs]

/-! ### Python `str()` / `repr()` of the values the program formats

`display_info` renders values through f-strings, i.e. `str()`.  For the
scalars and containers the program produces, `str()` is modelled below;
string `repr` is ASCII-accurate (CPython keeps printable non-ASCII raw
and escapes by Unicode printability, which no claim exercises). -/

/-- Python `repr` escape of one character inside quotes `q`. -/
def reprEscapeChar (q : Char) (c : Char) : List Char :=
  if c = '\\' then ['\\', '\\']
  else if c = q then ['\\', q]
  else if c = '\n' then ['\\', 'n']
  else if c = '\r' then ['\\', 'r']
  else if c = '\t' then ['\\', 't']
  else if c.toNat < 0x20 ∨ c.toNat = 0x7f then
    ['\\', 'x', Nat.digitChar (c.toNat / 16 % 16), Nat.digitChar (c.toNat % 16)]
  else [c]

/-- Python `repr` escape of a character sequence. -/
def reprEscape (q : Char) : List Char → List Char
  | [] => []
  | c :: cs => reprEscapeChar q c ++ reprEscape q cs

/-- Python `repr` of a string: single quotes unless the string holds a
single quote and no double quote. -/
def pyReprStr (s : String) : String :=
  let q : Char := if s.data.contains '\'' && !(s.data.contains '"') then '"' else '\''
  String.mk (q :: (reprEscape q s.data ++ [q]))

/-- Python `str`/`repr` of a number literal. -/
def decStr (m : Int) (e : Nat) : String := String.mk (numChars m e)

mutual

/-- Python `str()` of a value (what an f-string interpolates). -/
def pyStr : Json → String
  | .null => "None"
  | .bool true => "True"
  | .bool false => "False"
  | .num m e => decStr m e
  | .str s => s
  | .arr xs => "[" ++ pyReprItems xs ++ "]"
  | .obj kvs => "\x7b" ++ pyReprMembers kvs ++ "\x7d"

/-- Python `repr()` of a value (used for container elements). -/
def pyRepr : Json → String
  | .null => "None"
  | .bool true => "True"
  | .bool false => "False"
  | .num m e => decStr m e
  | .str s => pyReprStr s
  | .arr xs => "[" ++ pyReprItems xs ++ "]"
  | .obj kvs => "\x7b" ++ pyReprMembers kvs ++ "\x7d"

/-- Comma-separated `repr`s of list elements. -/
def pyReprItems : List Json → String
  | [] => ""
  | [x] => pyRepr x
  | x :: xs => pyRepr x ++ ", " ++ pyReprItems xs

/-- Comma-separated `repr(key): repr(value)` pairs of a dict. -/
def pyReprMembers : List (String × Json) → String
  | [] => ""
  | [kv] => pyReprStr kv.1 ++ ": " ++ pyRepr kv.2
  | kv :: kvs => pyReprStr kv.1 ++ ": " ++ pyRepr kv.2 ++ ", " ++ pyReprMembers kvs

end

/-! ### The text formatter `display_info` -/

/-- Python `str.capitalize`: first character upper, rest lower
(ASCII-accurate; the program's keys are ASCII identifiers). -/
def pyCapitalize (s : String) : String :=
  match s.data with
  | [] => ""
  | c :: cs => String.mk (c.toUpper :: cs.map Char.toLower)

/-- Python `f"Expr:{width}"` for a string: left-justify, pad with
spaces. -/
def padStr (s : String) (n : Nat) : String :=
  s ++ String.mk (List.replicate (n - s.length) ' ')

/-- Keys of a record; empty for non-dicts. -/
def jsonKeys : Json → List String
  | .obj kvs => kvs.map Prod.fst
  | _ => []

/-- Model of `keys.update(item.keys())` over all items: the union of all
record keys.  CPython iterates the resulting `set` in an unspecified
(hash-based) order; the model fixes first-insertion order, and no claim
depends on which order the set iterates beyond membership. -/
def keysUnion (items : List Json) : List String :=
  items.foldl (fun acc it => (jsonKeys it).foldl
    (fun acc2 k => if acc2.contains k then acc2 else acc2 ++ [k]) acc) []

/-- Python `item.get(key, 'N/A')` on a record. -/
def pyGet (kvs : List (String × Json)) (k : String) : Json :=
  match kvs.find? (fun kv => kv.1 = k) with
  | some kv => kv.2
  | none => .str "N/A"

/-- The column header: `"Name"` followed by `" | " + key.capitalize()`
for the remaining keys. -/
def headerOf (others : List String) : String :=
  others.foldl (fun h k => h ++ " | " ++ pyCapitalize k) "Name"

/-- One row of the record table: the name value followed by
`" | " + str(item.get(key, 'N/A'))` per remaining column for records
with a `"name"` key, the raw `print(item)` otherwise.  (For a scalar in
a mixed list CPython's `"name" in item` would raise `TypeError`; the
program only ever passes lists of dicts, and no claim exercises that
corner, where the model prints the item raw.) -/
def rowFor (others : List String) (item : Json) : String :=
  match item with
  | .obj kvs =>
    if (kvs.map Prod.fst).contains "name" then
      others.foldl (fun line k => line ++ " | " ++ pyStr (pyGet kvs k))
        (pyStr (pyGet kvs "name"))
    else pyStr item
  | it => pyStr it

/-- Lines printed for one key of a mapping: nested dict → `key:` plus
indented `sub_key: sub_value` lines; list → `key:` plus `  - item`
lines; otherwise one aligned `key: value` line. -/
def dictEntryLines (maxKeyLen : Nat) (kv : String × Json) : List String :=
  match kv.2 with
  | .obj sub => (kv.1 ++ ":") :: sub.map (fun skv => "  " ++ skv.1 ++ ": " ++ pyStr skv.2)
  | .arr items => (kv.1 ++ ":") :: items.map (fun it => "  - " ++ pyStr it)
  | v => [padStr kv.1 maxKeyLen ++ ": " ++ pyStr v]

/-- Model of `display_info(data, title)`: the sequence of `print` call
arguments, and whether the call completed (`false` = the uncaught
`ValueError` from `max()` over an empty dict's keys). -/
def displayRun (data : Json) (title : Option String) : List String × Bool :=
  let titleLines : List String :=
    match title with
    | some t => ["\n=== " ++ t ++ " ===\n"]
    | none => []
  match data with
  | .obj [] => (titleLines, false)
  | .obj kvs =>
    let maxKeyLen := (kvs.map (fun kv => kv.1.length)).foldl max 0
    (titleLines ++ kvs.flatMap (dictEntryLines maxKeyLen), true)
  | .arr [] => (titleLines, true)
  | .arr (first :: restItems) =>
    match first with
    | .obj _ =>
      let items := first :: restItems
      let keys := keysUnion items
      if keys.contains "name" then
        let others := keys.erase "name"
        let header := headerOf others
        (titleLines ++ header :: String.mk (List.replicate header.length '-') ::
          items.map (rowFor others), true)
      else
        (titleLines ++ items.map (rowFor keys), true)
    | _ => (titleLines ++ (first :: restItems).map (fun it => "- " ++ pyStr it), true)
  | _ => (titleLines, true)

/-- Model of `display_info` as a fallible function: `none` when the call
raises (empty mapping), otherwise the printed lines. -/
def display_info (data : Json) (title : Option String) : Option (List String) :=
  let r := displayRun data title
  if r.2 then some r.1 else none

/-! ### Collectors

Each collector is pure given the OS data it queries, which the model
passes explicitly.  Dictionary key order is the source's insertion
order.  Byte counts are converted with `round(bytes / 1024**k, 2)`;
the float arithmetic is modelled as exact rational rounding (the
divisors are powers of two, so the quotient is a binary float and
`repr` of the rounded value prints the short decimal below). -/

/-- Output of the `platform` / `socket` queries in `get_system_info`. -/
structure PlatformData where
  system : String
  node : String
  release : String
  version : String
  machine : String
  processor : String
  python_version : String

/-- Model of `get_system_info()`. -/
def get_system_info (p : PlatformData) : Json :=
  .obj [("system", .str p.system), ("node", .str p.node),
    ("release", .str p.release), ("version", .str p.version),
    ("machine", .str p.machine), ("processor", .str p.processor),
    ("python_version", .str p.python_version)]

/-- Output of the psutil CPU queries: core counts may be `None`,
`cpu_freq()` may be falsy, and the usage percentages are floats. -/
structure CpuData where
  physical_cores : Option Int
  total_cores : Option Int
  freq : Option (Dec × Dec)
  per_core : List Dec
  total : Dec

/-- Python `f"..percent.."` suffixed with a percent sign. -/
def pctStr (d : Dec) : String := decStr d.m d.e ++ "%"

/-- Model of `get_cpu_info()`. -/
def get_cpu_info (c : CpuData) : Json :=
  .obj [
    ("physical_cores", match c.physical_cores with
      | some n => .num n 0
      | none => .null),
    ("total_cores", match c.total_cores with
      | some n => .num n 0
      | none => .null),
    ("max_frequency", match c.freq with
      | some f => .num f.1.m f.1.e
      | none => .str "N/A"),
    ("current_frequency", match c.freq with
      | some f => .num f.2.m f.2.e
      | none => .str "N/A"),
    ("cpu_usage_per_core", .arr (c.per_core.map (fun d => .str (pctStr d)))),
    ("total_cpu_usage", .str (pctStr c.total))]

/-- Round `num / den` to the nearest integer, ties to even (Python's
`round`). -/
def roundHalfEven (num den : Nat) : Nat :=
  let q := num / den
  let r := num % den
  if 2 * r < den then q
  else if den < 2 * r then q + 1
  else if q % 2 = 0 then q else q + 1

/-- Model of `round(num / den, 2)` followed by float `repr`: hundredths
rounded half-to-even, trailing zero dropped (but at least one decimal
digit, as float `repr` prints). -/
def round2 (num den : Nat) : Dec :=
  let h := roundHalfEven (num * 100) den
  if h % 10 = 0 then ⟨(h / 10 : Int), 1⟩ else ⟨(h : Int), 2⟩

/-- Model of `f"{round(n / (1024**3), 2)} GB"` (`bytes_to_gb` and the
disk sizes). -/
def gbStr (n : Nat) : String :=
  decStr (round2 n (1024 ^ 3)).m (round2 n (1024 ^ 3)).e ++ " GB"

/-- Model of `f"{round(n / (1024**2), 2)} MB"` (network byte counts). -/
def mbStr (n : Nat) : String :=
  decStr (round2 n (1024 ^ 2)).m (round2 n (1024 ^ 2)).e ++ " MB"

/-- Output of `psutil.virtual_memory()` / `psutil.swap_memory()`. -/
structure MemData where
  total : Nat
  available : Nat
  used : Nat
  percent : Dec
  swap_total : Nat
  swap_used : Nat
  swap_percent : Dec

/-- Model of `get_memory_info()`. -/
def get_memory_info (m : MemData) : Json :=
  .obj [("total", .str (gbStr m.total)), ("available", .str (gbStr m.available)),
    ("used", .str (gbStr m.used)), ("percentage", .str (pctStr m.percent)),
    ("swap_total", .str (gbStr m.swap_total)),
    ("swap_used", .str (gbStr m.swap_used)),
    ("swap_percentage", .str (pctStr m.swap_percent))]

/-- One entry of `psutil.disk_partitions()`. -/
structure Partition where
  device : String
  mountpoint : String
  fstype : String
deriving DecidableEq, Repr

/-- Output of a successful `psutil.disk_usage(mountpoint)` call. -/
structure Usage where
  total : Nat
  used : Nat
  free : Nat
  percent : Dec
deriving DecidableEq, Repr

/-- The dict appended for one accessible partition. -/
def mkDiskEntry (p : Partition) (u : Usage) : Json :=
  .obj [("device", .str p.device), ("mountpoint", .str p.mountpoint),
    ("file_system", .str p.fstype),
    ("total_size", .str (gbStr u.total)), ("used", .str (gbStr u.used)),
    ("free", .str (gbStr u.free)), ("percentage", .str (pctStr u.percent))]

/-- Model of `get_disk_info()`: `usage` maps a mountpoint to the result
of `psutil.disk_usage` (`none` = the call raised); a partition whose
query fails is skipped by the bare `except: pass`. -/
def get_disk_info (parts : List Partition) (usage : String → Option Usage) :
    List Json :=
  match parts with
  | [] => []
  | p :: ps =>
    match usage p.mountpoint with
    | some u => mkDiskEntry p u :: get_disk_info ps usage
    | none => get_disk_info ps usage

/-- One entry of `psutil.net_io_counters(pernic=True)`. -/
structure NetStats where
  bytes_sent : Nat
  bytes_recv : Nat
  packets_sent : Nat
  packets_recv : Nat

/-- Output of the socket / psutil network queries. -/
structure NetData where
  hostname : String
  ip : String
  interfaces : List (String × NetStats)

/-- Model of `get_network_info()`. -/
def get_network_info (n : NetData) : Json :=
  .obj [("hostname", .str n.hostname), ("ip_address", .str n.ip),
    ("interfaces", .obj (n.interfaces.map (fun p =>
      (p.1, Json.obj [("bytes_sent", .str (mbStr p.2.bytes_sent)),
        ("bytes_received", .str (mbStr p.2.bytes_recv)),
        ("packets_sent", .num p.2.packets_sent 0),
        ("packets_received", .num p.2.packets_recv 0)]))))]

/-- The three psutil exceptions the process loop catches. -/
inductive PsErr where
  | noSuchProcess
  | accessDenied
  | zombieProcess
deriving DecidableEq, Repr

/-- The `proc.info` fields requested from `psutil.process_iter`. -/
structure ProcEntry where
  pid : Int
  name : String
  username : String
  memory_percent : Dec
  cpu_percent : Dec
deriving DecidableEq, Repr

/-- The enumeration loop of `get_process_info`: each successfully
queried process is appended, a process that raises one of the three
caught exceptions is skipped. -/
def enumProcesses : List (Except PsErr ProcEntry) → List ProcEntry
  | [] => []
  | .ok p :: rest => p :: enumProcesses rest
  | .error _ :: rest => enumProcesses rest

/-- Python `xs[:n]` for an `int` n: a prefix for `n ≥ 0`, everything but
the last `|n|` elements for negative `n`. -/
def pySliceTo {α : Type} (xs : List α) (n : Int) : List α :=
  if 0 ≤ n then xs.take n.toNat
  else xs.take (xs.length - (-n).toNat)

/-- Model of `get_process_info(sort_by, limit)` over the enumeration
outcomes: collect, sort descending by the selected percentage
(`list.sort(key=..., reverse=True)` is a stable descending sort, as is
`mergeSort` with the flipped comparison), then slice to `limit`. -/
def get_process_info (outcomes : List (Except PsErr ProcEntry))
    (sort_by : String) (limit : Int) : List ProcEntry :=
  let processes := enumProcesses outcomes
  let sorted :=
    if sort_by = "memory" then
      processes.mergeSort (fun a b => Dec.le b.memory_percent a.memory_percent)
    else
      processes.mergeSort (fun a b => Dec.le b.cpu_percent a.cpu_percent)
  pySliceTo sorted limit

/-- The dict built for one process entry. -/
def procJson (p : ProcEntry) : Json :=
  .obj [("pid", .num p.pid 0), ("name", .str p.name),
    ("username", .str p.username),
    ("memory_percent", .num p.memory_percent.m p.memory_percent.e),
    ("cpu_percent", .num p.cpu_percent.m p.cpu_percent.e)]

/-! ### CLI driver -/

/-- The parsed argparse namespace. -/
structure Args where
  all : Bool
  system : Bool
  cpu : Bool
  memory : Bool
  disk : Bool
  network : Bool
  processes : Bool
  sortBy : String
  limit : Int
  output : Option String
  json : Bool

/-- The OS-provided inputs of one invocation. -/
structure Env where
  platform : PlatformData
  cpu : CpuData
  mem : MemData
  partitions : List Partition
  usage : String → Option Usage
  net : NetData
  procs : List (Except PsErr ProcEntry)
  timestamp : String

/-- `any([args.all, args.system, ...])` over the seven section flags. -/
def anyFlag (a : Args) : Bool :=
  a.all || a.system || a.cpu || a.memory || a.disk || a.network || a.processes

/-- The defaulting step: no section flag selected means
`args.system = True`. -/
def applyDefault (a : Args) : Args :=
  if anyFlag a then a else { a with system := true }

/-- The collection phase of `main()`: the `results` dict after the six
conditional collector calls, in source order. -/
def mainResults (a : Args) (env : Env) : List (String × Json) :=
  let b := applyDefault a
  (if b.all || b.system then [("system", get_system_info env.platform)] else []) ++
  (if b.all || b.cpu then [("cpu", get_cpu_info env.cpu)] else []) ++
  (if b.all || b.memory then [("memory", get_memory_info env.mem)] else []) ++
  (if b.all || b.disk then
    [("disk", Json.arr (get_disk_info env.partitions env.usage))] else []) ++
  (if b.all || b.network then [("network", get_network_info env.net)] else []) ++
  (if b.all || b.processes then
    [("processes", Json.arr ((get_process_info env.procs a.sortBy a.limit).map procJson))]
   else [])

/-- Observable effects of the run. -/
inductive Effect where
  | print (s : String)
  | writeFile (name : String) (content : String)
  | crash
deriving DecidableEq, Repr

/-- Model of `save_to_file(data, filename)`: write
`json.dump(data, f, indent=4)` and report. -/
def save_to_file (data : Json) (filename : String) : List Effect :=
  [.writeFile filename (dumps data), .print ("Information saved to " ++ filename)]

/-- The per-section display calls of the stdout text path, in source
order; a raised exception stops the run (no later prints). -/
def displaySections (results : List (String × Json)) :
    List (String × String) → List Effect
  | [] => []
  | (key, title) :: rest =>
    match results.find? (fun kv => kv.1 = key) with
    | some kv =>
      let r := displayRun kv.2 (some title)
      if r.2 then (r.1.map .print) ++ displaySections results rest
      else (r.1.map .print) ++ [.crash]
    | none => displaySections results rest

/-- The section keys and titles of the text output path. -/
def sectionTitles (a : Args) : List (String × String) :=
  [("system", "System Information"), ("cpu", "CPU Information"),
   ("memory", "Memory Information"), ("disk", "Disk Information"),
   ("network", "Network Information"),
   ("processes", "Top " ++ toString a.limit ++ " Processes by " ++
     (if a.sortBy = "memory" then "Memory" else "CPU") ++ " Usage")]

/-- The output phase of `main()`: JSON to file or stdout when `--json`,
otherwise a timestamp is added and the results go to a file (as JSON)
or to stdout as text. -/
def mainEffects (a : Args) (env : Env) : List Effect :=
  let results := mainResults a env
  if a.json then
    match a.output with
    | some f => save_to_file (.obj results) f
    | none => [.print (dumps (.obj results))]
  else
    let results := results ++ [("timestamp", .str env.timestamp)]
    match a.output with
    | some f => save_to_file (.obj results) f
    | none =>
      .print ("\nSystem Information - " ++ env.timestamp ++ "\n") ::
        displaySections results (sectionTitles a)

/-- The canonical section order of the snapshot. -/
def canonicalSections : List String :=
  ["system", "cpu", "memory", "disk", "network", "processes"]

/-- The text printed to stdout by a run (each `print` call appends a
newline). -/
def printsOf (effs : List Effect) : String :=
  effs.foldl (fun acc e =>
    match e with
    | .print s => acc ++ s ++ "\n"
    | _ => acc) ""

/-! ### Concrete fixture for witnesses -/

/-- A concrete environment used by witness instantiations. -/
def envA : Env where
  platform := ⟨"Linux", "host", "6.1.0", "#1 SMP", "x86_64", "x86_64", "3.11.2"⟩
  cpu := ⟨some 4, some 8, none, [⟨125, 1⟩, ⟨50, 1⟩], ⟨88, 1⟩⟩
  mem := ⟨2 ^ 31, 2 ^ 30, 2 ^ 30, ⟨500, 1⟩, 2 ^ 30, 0, ⟨0, 1⟩⟩
  partitions := [⟨"/dev/sda1", "/", "ext4"⟩, ⟨"/dev/sdb1", "/mnt/x", "vfat"⟩]
  usage := fun mp => if mp = "/" then some ⟨2 ^ 33, 2 ^ 32, 2 ^ 32, ⟨500, 1⟩⟩ else none
  net := ⟨"host", "127.0.1.1", [("lo", ⟨1048576, 2097152, 10, 12⟩)]⟩
  procs := [.ok ⟨1, "init", "root", ⟨5, 1⟩, ⟨1, 1⟩⟩, .error .accessDenied,
    .ok ⟨2, "bash", "user", ⟨73, 1⟩, ⟨2, 1⟩⟩]
  timestamp := "2026-10-12 12:00:00"

/-- An invocation with no flags at all. -/
def argsNone : Args :=
  ⟨false, false, false, false, false, false, false, "memory", 10, none, false⟩

/-- An invocation with `--all`. -/
def argsAll : Args :=
  ⟨true, false, false, false, false, false, false, "memory", 10, none, false⟩

/-- An invocation with `--system -o out.txt` and no `--json`. -/
def argsOut : Args :=
  ⟨false, true, false, false, false, false, false, "memory", 10, some "out.txt", false⟩

/-! ### Claims -/

/-- C3: with none of the section flags (`--all`, `--system`, `--cpu`,
`--memory`, `--disk`, `--network`, `--processes`) set, the snapshot
holds exactly the `system` section — also after the text path appends
its `timestamp` field, which is not a section. -/
theorem c3_default_system_only (a : Args) (env : Env) (h : anyFlag a = false) :
    (mainResults a env).map Prod.fst = ["system"] ∧
    ((mainResults a env ++ [("timestamp", Json.str env.timestamp)]).map Prod.fst).filter
      (fun k => canonicalSections.contains k) = ["system"] := by
  have h7 := h
  simp only [anyFlag, Bool.or_eq_false_iff] at h7
  obtain ⟨⟨⟨⟨⟨⟨hall, hsys⟩, hcpu⟩, hmem⟩, hdisk⟩, hnet⟩, hproc⟩ := h7
  constructor <;>
    simp [mainResults, applyDefault, anyFlag, h, hall, hsys, hcpu, hmem, hdisk,
      hnet, hproc, canonicalSections]

/-- Witness for C3 at a concrete invocation and environment. -/
theorem c3_witness :
    (mainResults argsNone envA).map Prod.fst = ["system"] ∧
    ((mainResults argsNone envA ++ [("timestamp", Json.str envA.timestamp)]).map
      Prod.fst).filter (fun k => canonicalSections.contains k) = ["system"] :=
  c3_default_system_only argsNone envA (by decide)

/-- C7: with `--all` set, the snapshot holds all six sections, in
source order. -/
theorem c7_all_sections (a : Args) (env : Env) (h : a.all = true) :
    (mainResults a env).map Prod.fst = canonicalSections := by
  simp [mainResults, applyDefault, anyFlag, h, canonicalSections]

/-- Witness for C7 at a concrete invocation and environment. -/
theorem c7_witness : (mainResults argsAll envA).map Prod.fst = canonicalSections :=
  c7_all_sections argsAll envA (by decide)

/-- C10: whatever combination of flags is set, the snapshot's keys are
a subsequence of the canonical order system, cpu, memory, disk,
network, processes (argparse collapses command-line flag order into
the namespace, so the order given on the command line is immaterial). -/
theorem c10_canonical_order (a : Args) (env : Env) :
    ((mainResults a env).map Prod.fst).Sublist canonicalSections := by
  unfold mainResults canonicalSections
  generalize applyDefault a = b
  cases hb1 : (b.all || b.system) <;> cases hb2 : (b.all || b.cpu) <;>
    cases hb3 : (b.all || b.memory) <;> cases hb4 : (b.all || b.disk) <;>
    cases hb5 : (b.all || b.network) <;> cases hb6 : (b.all || b.processes) <;>
    simp [hb1, hb2, hb3, hb4, hb5, hb6] <;> decide

/-- C9: `display_info` raises on the empty mapping (`max()` over an
empty key sequence), so the text formatter is not total over snapshot
fragments. -/
theorem c9_empty_mapping_fails : display_info (Json.obj []) none = none := rfl

/-- C5: parsing the JSON text the formatter emits (the same
`json.dumps(·, indent=4)` feeds stdout and the file) recovers exactly
the snapshot passed in. -/
theorem c5_json_roundtrip (v : Json) : loads (dumps v) = some v := loads_dumps v

/-- C8: the process enumeration keeps exactly the successfully queried
processes, in order; a process that raises `NoSuchProcess`,
`AccessDenied` or `ZombieProcess` is dropped and the loop never
propagates an error (the function is total on every outcome list). -/
theorem c8_enumeration_skips_failures (outcomes : List (Except PsErr ProcEntry)) :
    enumProcesses outcomes = outcomes.filterMap Except.toOption ∧
    ∀ p : ProcEntry, p ∈ enumProcesses outcomes ↔ Except.ok p ∈ outcomes := by
  have h1 : enumProcesses outcomes = outcomes.filterMap Except.toOption := by
    induction outcomes with
    | nil => rfl
    | cons o rest ih => cases o <;> simp [enumProcesses, Except.toOption, ih]
  refine ⟨h1, fun p => ?_⟩
  rw [h1]
  rw [List.mem_filterMap]
  constructor
  · rintro ⟨o, ho, hoo⟩
    cases o with
    | ok q =>
      simp [Except.toOption] at hoo
      subst hoo
      exact ho
    | error e => simp [Except.toOption] at hoo
  · intro hp
    exact ⟨.ok p, hp, rfl⟩

/-- C4: the disk collector's result holds the entry of a partition
exactly when its usage query succeeded; a failing query silently drops
the partition and raises nothing (the collector is a total function).
The first conjunct pins the whole result; the second is the
per-partition membership equivalence. -/
theorem c4_disk_skips_failed (parts : List Partition) (usage : String → Option Usage) :
    get_disk_info parts usage =
      parts.filterMap (fun p => (usage p.mountpoint).map (mkDiskEntry p)) ∧
    ∀ p ∈ parts,
      ((∃ u, usage p.mountpoint = some u ∧
        mkDiskEntry p u ∈ get_disk_info parts usage) ↔ (usage p.mountpoint).isSome) := by
  have h1 : get_disk_info parts usage =
      parts.filterMap (fun p => (usage p.mountpoint).map (mkDiskEntry p)) := by
    induction parts with
    | nil => rfl
    | cons p ps ih =>
      cases hu : usage p.mountpoint <;> simp [get_disk_info, hu, ih]
  refine ⟨h1, fun p hp => ?_⟩
  constructor
  · rintro ⟨u, hu, _⟩
    simp [hu]
  · intro hs
    rcases Option.isSome_iff_exists.mp hs with ⟨u, hu⟩
    refine ⟨u, hu, ?_⟩
    rw [h1]
    exact List.mem_filterMap.mpr ⟨p, hp, by simp [hu]⟩

/-- Witness for C4 at a concrete partition table: the accessible root
partition appears, while the partition with the failing query could
not (its `isSome` is `false`). -/
theorem c4_witness :
    ((∃ u, envA.usage "/" = some u ∧
        mkDiskEntry ⟨"/dev/sda1", "/", "ext4"⟩ u ∈
          get_disk_info envA.partitions envA.usage) ↔ (envA.usage "/").isSome) ∧
    ((∃ u, envA.usage "/mnt/x" = some u ∧
        mkDiskEntry ⟨"/dev/sdb1", "/mnt/x", "vfat"⟩ u ∈
          get_disk_info envA.partitions envA.usage) ↔ (envA.usage "/mnt/x").isSome) :=
  ⟨(c4_disk_skips_failed envA.partitions envA.usage).2 ⟨"/dev/sda1", "/", "ext4"⟩
      (by decide),
    (c4_disk_skips_failed envA.partitions envA.usage).2 ⟨"/dev/sdb1", "/mnt/x", "vfat"⟩
      (by decide)⟩

/-! ### C1: process list bound and order -/

theorem Dec.le_total_bool (x y : Dec) : (Dec.le x y || Dec.le y x) = true := by
  simp only [Dec.le, Bool.or_eq_true, decide_eq_true_eq]
  exact Int.le_total _ _

theorem Dec.le_trans_bool {x y z : Dec} (h1 : Dec.le x y = true)
    (h2 : Dec.le y z = true) : Dec.le x z = true := by
  simp only [Dec.le, decide_eq_true_eq] at h1 h2 ⊢
  have hy : (0 : Int) < 10 ^ y.e := pow_pos (by norm_num) _
  have hA := mul_le_mul_of_nonneg_right h1
    (pow_nonneg (by norm_num : (0 : Int) ≤ 10) z.e)
  have hB := mul_le_mul_of_nonneg_right h2
    (pow_nonneg (by norm_num : (0 : Int) ≤ 10) x.e)
  have hchain : x.m * 10 ^ z.e * 10 ^ y.e ≤ z.m * 10 ^ x.e * 10 ^ y.e := by
    nlinarith [hA, hB]
  exact le_of_mul_le_mul_right hchain hy

/-- `xs[:n]` is always a `take`. -/
theorem pySliceTo_eq_take {α : Type} (xs : List α) (n : Int) :
    pySliceTo xs n =
      xs.take (if 0 ≤ n then n.toNat else xs.length - (-n).toNat) := by
  unfold pySliceTo
  split <;> simp_all

/-- C1 (amended): for every enumeration outcome, sort key and
**nonnegative** limit, the returned list has at most `limit` entries
and is sorted descending by `memory_percent` when sorting by memory,
by `cpu_percent` otherwise.  (For a negative `limit`, Python's
`processes[:limit]` drops elements from the end instead of bounding
the length — see the counterexample.) -/
theorem c1_process_list_bounded_sorted (outcomes : List (Except PsErr ProcEntry))
    (sort_by : String) (limit : Int) (hl : 0 ≤ limit)
    (hs : sort_by = "cpu" ∨ sort_by = "memory") :
    ((get_process_info outcomes sort_by limit).length : Int) ≤ limit ∧
    (sort_by = "memory" →
      (get_process_info outcomes sort_by limit).Pairwise
        (fun a b => Dec.le b.memory_percent a.memory_percent = true)) ∧
    (sort_by ≠ "memory" →
      (get_process_info outcomes sort_by limit).Pairwise
        (fun a b => Dec.le b.cpu_percent a.cpu_percent = true)) := by
  refine ⟨?_, ?_, ?_⟩
  · unfold get_process_info
    rw [pySliceTo_eq_take, if_pos hl]
    have := List.length_take_le limit.toNat
      (if sort_by = "memory" then
        (enumProcesses outcomes).mergeSort
          (fun a b => Dec.le b.memory_percent a.memory_percent)
      else
        (enumProcesses outcomes).mergeSort
          (fun a b => Dec.le b.cpu_percent a.cpu_percent))
    omega
  · intro hm
    subst hm
    unfold get_process_info
    rw [pySliceTo_eq_take, if_pos rfl]
    refine List.Pairwise.sublist (List.take_sublist _ _) ?_
    exact @List.sorted_mergeSort ProcEntry
      (fun a b => Dec.le b.memory_percent a.memory_percent)
      (fun a b c hab hbc => Dec.le_trans_bool hbc hab)
      (fun a b => Dec.le_total_bool b.memory_percent a.memory_percent) _
  · intro hm
    unfold get_process_info
    rw [pySliceTo_eq_take, if_neg hm]
    refine List.Pairwise.sublist (List.take_sublist _ _) ?_
    exact @List.sorted_mergeSort ProcEntry
      (fun a b => Dec.le b.cpu_percent a.cpu_percent)
      (fun a b c hab hbc => Dec.le_trans_bool hbc hab)
      (fun a b => Dec.le_total_bool b.cpu_percent a.cpu_percent) _

/-- Witness for C1 at a concrete outcome list, `--sort-by memory`,
`--limit 10`. -/
theorem c1_witness :
    ((get_process_info envA.procs "memory" 10).length : Int) ≤ 10 ∧
    ("memory" = "memory" →
      (get_process_info envA.procs "memory" 10).Pairwise
        (fun a b => Dec.le b.memory_percent a.memory_percent = true)) ∧
    ("memory" ≠ "memory" →
      (get_process_info envA.procs "memory" 10).Pairwise
        (fun a b => Dec.le b.cpu_percent a.cpu_percent = true)) :=
  c1_process_list_bounded_sorted envA.procs "memory" 10 (by decide) (Or.inr rfl)

/-- C1 counterexample: with two live processes and `--limit -1`,
`processes[:-1]` returns one entry, so the claimed bound
`length ≤ limit` fails for the negative limit the CLI accepts. -/
theorem c1_counterexample :
    ¬ (((get_process_info
        [.ok ⟨1, "a", "r", ⟨7, 1⟩, ⟨1, 1⟩⟩, .ok ⟨2, "b", "r", ⟨5, 1⟩, ⟨2, 1⟩⟩]
        "memory" (-1)).length : Int) ≤ -1) := by
  have hms : List.mergeSort
      [(⟨1, "a", "r", ⟨7, 1⟩, ⟨1, 1⟩⟩ : ProcEntry), ⟨2, "b", "r", ⟨5, 1⟩, ⟨2, 1⟩⟩]
      (fun a b => Dec.le b.memory_percent a.memory_percent) =
      [⟨1, "a", "r", ⟨7, 1⟩, ⟨1, 1⟩⟩, ⟨2, "b", "r", ⟨5, 1⟩, ⟨2, 1⟩⟩] :=
    List.mergeSort_of_sorted (by decide)
  simp [get_process_info, enumProcesses, hms, pySliceTo]

/-! ### C6: the record-table formatter -/

theorem contains_iff_mem (l : List String) (k : String) :
    l.contains k = true ↔ k ∈ l := by
  simp [List.contains, List.elem_iff]

theorem addKey_foldl_mem (ks : List String) (acc : List String) (k : String) :
    k ∈ ks.foldl (fun acc2 k2 => if acc2.contains k2 then acc2 else acc2 ++ [k2]) acc ↔
      k ∈ acc ∨ k ∈ ks := by
  induction ks generalizing acc with
  | nil => simp
  | cons k2 t ih =>
    simp only [List.foldl_cons]
    rw [ih]
    by_cases hc : acc.contains k2 = true
    · have hm : k2 ∈ acc := (contains_iff_mem acc k2).mp hc
      rw [if_pos hc]
      simp only [List.mem_cons]
      constructor
      · rintro (h | h)
        · exact Or.inl h
        · exact Or.inr (Or.inr h)
      · rintro (h | h | h)
        · exact Or.inl h
        · subst h; exact Or.inl hm
        · exact Or.inr h
    · rw [if_neg hc]
      simp only [List.mem_append, List.mem_singleton, List.mem_cons]
      tauto

theorem addKey_foldl_nodup (ks : List String) (acc : List String)
    (hacc : acc.Nodup) :
    (ks.foldl (fun acc2 k2 => if acc2.contains k2 then acc2 else acc2 ++ [k2])
      acc).Nodup := by
  induction ks generalizing acc with
  | nil => exact hacc
  | cons k2 t ih =>
    simp only [List.foldl_cons]
    by_cases hc : acc.contains k2 = true
    · rw [if_pos hc]
      exact ih acc hacc
    · rw [if_neg hc]
      refine ih _ ?_
      have hm : k2 ∉ acc := fun hmm => hc ((contains_iff_mem acc k2).mpr hmm)
      simp [List.nodup_append, hacc, hm]

/-- Membership in the key union is membership in some record's keys. -/
theorem keysUnion_mem (items : List Json) (k : String) :
    k ∈ keysUnion items ↔ ∃ i ∈ items, k ∈ jsonKeys i := by
  unfold keysUnion
  suffices h : ∀ acc : List String,
      k ∈ items.foldl (fun acc it => (jsonKeys it).foldl
        (fun acc2 k2 => if acc2.contains k2 then acc2 else acc2 ++ [k2]) acc) acc ↔
      k ∈ acc ∨ ∃ i ∈ items, k ∈ jsonKeys i by
    simpa using h []
  intro acc
  induction items generalizing acc with
  | nil => simp
  | cons i t ih =>
    simp only [List.foldl_cons]
    rw [ih, addKey_foldl_mem]
    simp only [List.mem_cons]
    constructor
    · rintro ((h | h) | ⟨j, hj, hkj⟩)
      · exact Or.inl h
      · exact Or.inr ⟨i, Or.inl rfl, h⟩
      · exact Or.inr ⟨j, Or.inr hj, hkj⟩
    · rintro (h | ⟨j, (hj | hj), hkj⟩)
      · exact Or.inl (Or.inl h)
      · subst hj; exact Or.inl (Or.inr hkj)
      · exact Or.inr ⟨j, hj, hkj⟩

/-- The key union never repeats a key. -/
theorem keysUnion_nodup (items : List Json) : (keysUnion items).Nodup := by
  unfold keysUnion
  suffices h : ∀ acc : List String, acc.Nodup →
      (items.foldl (fun acc it => (jsonKeys it).foldl
        (fun acc2 k2 => if acc2.contains k2 then acc2 else acc2 ++ [k2]) acc)
        acc).Nodup from h [] (by simp)
  intro acc hacc
  induction items generalizing acc with
  | nil => exact hacc
  | cons i t ih =>
    simp only [List.foldl_cons]
    exact ih _ (addKey_foldl_nodup _ _ hacc)

/-- C6 (amended): for every non-empty record list, when some record
holds a `"name"` key the output is the column header (`Name` first,
then the remaining keys of the union, capitalized), a dash rule, and
one line per record; when no record holds a `"name"` key no header is
printed and every record prints as its Python `str()`.  Flat mappings
still print as aligned `key: value` lines and nested mappings as
indented sub-lines (`dictEntryLines`). -/
theorem c6_tabular_formatter :
    (∀ items : List Json, items ≠ [] →
      (∀ i ∈ items, ∃ kvs, i = Json.obj kvs) →
      ("name" ∈ keysUnion items →
        display_info (.arr items) none =
          some (headerOf ((keysUnion items).erase "name") ::
            String.mk (List.replicate (headerOf ((keysUnion items).erase "name")).length '-') ::
            items.map (rowFor ((keysUnion items).erase "name"))) ∧
        (∀ k, k ∈ (keysUnion items).erase "name" ↔
          (k ≠ "name" ∧ ∃ i ∈ items, k ∈ jsonKeys i))) ∧
      ("name" ∉ keysUnion items →
        display_info (.arr items) none = some (items.map pyStr))) ∧
    (∀ kvs : List (String × Json), kvs ≠ [] →
      display_info (.obj kvs) none =
        some (kvs.flatMap
          (dictEntryLines ((kvs.map (fun kv => kv.1.length)).foldl max 0)))) := by
  constructor
  · intro items hne hobj
    constructor
    · intro hname
      have hcont : (keysUnion items).contains "name" = true :=
        (contains_iff_mem _ _).mpr hname
      constructor
      · match items, hne with
        | first :: restItems, _ =>
          obtain ⟨kvs1, hkvs1⟩ := hobj first (by simp)
          subst hkvs1
          simp [display_info, displayRun, hcont, hname]
      · intro k
        rw [(keysUnion_nodup items).mem_erase_iff, keysUnion_mem]
    · intro hname
      have hcont : (keysUnion items).contains "name" = false := by
        cases hc : (keysUnion items).contains "name"
        · rfl
        · exact absurd ((contains_iff_mem _ _).mp hc) hname
      have hrow : ∀ i ∈ items, rowFor (keysUnion items) i = pyStr i := by
        intro i hi
        cases i with
        | obj kvs =>
          have hnk : (kvs.map Prod.fst).contains "name" = false := by
            cases hc2 : (kvs.map Prod.fst).contains "name"
            · rfl
            · exact absurd ((keysUnion_mem items "name").mpr
                ⟨.obj kvs, hi, (contains_iff_mem _ _).mp hc2⟩) hname
          have hunf : rowFor (keysUnion items) (Json.obj kvs) =
              if (kvs.map Prod.fst).contains "name" then
                (keysUnion items).foldl
                  (fun line k => line ++ " | " ++ pyStr (pyGet kvs k))
                  (pyStr (pyGet kvs "name"))
              else pyStr (Json.obj kvs) := rfl
          rw [hunf, hnk]
          simp
        | null => rfl
        | bool b => rfl
        | num m e => rfl
        | str s => rfl
        | arr xs => rfl
      match items, hne with
      | first :: restItems, _ =>
        obtain ⟨kvs1, hkvs1⟩ := hobj first (by simp)
        subst hkvs1
        have hmap : (Json.obj kvs1 :: restItems).map
            (rowFor (keysUnion (Json.obj kvs1 :: restItems))) =
            (Json.obj kvs1 :: restItems).map pyStr :=
          List.map_congr_left hrow
        simp [display_info, displayRun, hcont, hname, hmap]
  · intro kvs hne
    match kvs, hne with
    | kv :: rest, _ => simp [display_info, displayRun]

/-- Witness for C6 at two concrete record lists: one with a `"name"`
key (one record lacks a column, one lacks `name`), and one with no
`"name"` key anywhere. -/
theorem c6_witness :
    (display_info
        (.arr [.obj [("name", .str "init"), ("pid", .num 1 0)], .obj [("pid", .num 2 0)]])
        none =
      some (headerOf ((keysUnion
          [.obj [("name", .str "init"), ("pid", .num 1 0)],
            .obj [("pid", .num 2 0)]]).erase "name") ::
        String.mk (List.replicate (headerOf ((keysUnion
          [.obj [("name", .str "init"), ("pid", .num 1 0)],
            .obj [("pid", .num 2 0)]]).erase "name")).length '-') ::
        [.obj [("name", .str "init"), ("pid", .num 1 0)],
          .obj [("pid", .num 2 0)]].map (rowFor ((keysUnion
          [.obj [("name", .str "init"), ("pid", .num 1 0)],
            .obj [("pid", .num 2 0)]]).erase "name")))) ∧
    display_info (.arr [.obj [("pid", .num 3 0)]]) none =
      some ([Json.obj [("pid", .num 3 0)]].map pyStr) :=
  ⟨((c6_tabular_formatter.1
    [.obj [("name", .str "init"), ("pid", .num 1 0)], .obj [("pid", .num 2 0)]]
    (by simp)
    (by
      intro i hi
      rcases List.mem_cons.mp hi with rfl | hi2
      · exact ⟨_, rfl⟩
      · rcases List.mem_cons.mp hi2 with rfl | h3
        · exact ⟨_, rfl⟩
        · simp at h3)).1 (by decide)).1,
   (c6_tabular_formatter.1 [.obj [("pid", .num 3 0)]]
    (by simp)
    (by
      intro i hi
      rcases List.mem_cons.mp hi with rfl | hi2
      · exact ⟨_, rfl⟩
      · simp at hi2)).2 (by decide)⟩

/-- C6 counterexample: a nonempty record list with no `"name"` key
prints no header at all — the output is a single line, the raw
`print(item)` of the record, while the claimed header plus one line per
record would make at least two lines. -/
theorem c6_counterexample :
    (display_info (Json.arr [.obj [("pid", .num 1 0)]]) none).map List.length =
      some 1 ∧
    display_info (Json.arr [.obj [("pid", .num 1 0)]]) none =
      some [pyStr (Json.obj [("pid", .num 1 0)])] := by
  constructor
  · simp [display_info, displayRun, keysUnion, jsonKeys]
  · simp [display_info, displayRun, keysUnion, jsonKeys, rowFor]

/-! ### C2: output routing -/

/-- The first character printed by a run is the first character of the
first `print`ed string. -/
theorem printsOf_head (effs : List Effect) (acc : String) (c : Char)
    (rest : List Char) (h : acc.data = c :: rest) :
    (effs.foldl (fun a e =>
      match e with
      | .print s => a ++ s ++ "\n"
      | _ => a) acc).data.head? = some c := by
  induction effs generalizing acc c rest with
  | nil => simp [h]
  | cons e t ih =>
    cases e with
    | print s =>
      rw [List.foldl_cons]
      exact ih (acc ++ s ++ "\n") c (rest ++ s.data ++ ['\n']) (by simp [h])
    | writeFile n co =>
      rw [List.foldl_cons]
      exact ih acc c rest h
    | crash =>
      rw [List.foldl_cons]
      exact ih acc c rest h

/-- C2 (amended): whenever an output file is given, the run performs
exactly one file write — JSON with 4-space indentation (`dumps`) of the
collected results, with a `timestamp` field appended first when
`--json` is unset — followed by the confirmation print.  The second
conjunct certifies the written text is JSON: it parses back to the
written snapshot. -/
theorem c2_file_always_json (a : Args) (env : Env) (f : String)
    (h : a.output = some f) :
    mainEffects a env =
      [Effect.writeFile f (dumps (Json.obj (mainResults a env ++
        (if a.json then [] else [("timestamp", Json.str env.timestamp)])))),
       Effect.print ("Information saved to " ++ f)] ∧
    loads (dumps (Json.obj (mainResults a env ++
      (if a.json then [] else [("timestamp", Json.str env.timestamp)])))) =
      some (Json.obj (mainResults a env ++
        (if a.json then [] else [("timestamp", Json.str env.timestamp)]))) := by
  refine ⟨?_, loads_dumps _⟩
  cases hj : a.json
  · simp [mainEffects, h, hj, save_to_file]
  · simp [mainEffects, h, hj, save_to_file]

/-- Witness for C2 at a concrete invocation (`--system -o out.txt`, no
`--json`) and environment. -/
theorem c2_witness :
    mainEffects argsOut envA =
      [Effect.writeFile "out.txt" (dumps (Json.obj (mainResults argsOut envA ++
        (if argsOut.json then [] else [("timestamp", Json.str envA.timestamp)])))),
       Effect.print ("Information saved to " ++ "out.txt")] ∧
    loads (dumps (Json.obj (mainResults argsOut envA ++
      (if argsOut.json then [] else [("timestamp", Json.str envA.timestamp)])))) =
      some (Json.obj (mainResults argsOut envA ++
        (if argsOut.json then [] else [("timestamp", Json.str envA.timestamp)]))) :=
  c2_file_always_json argsOut envA "out.txt" rfl

/-- C2 counterexample: with an output file and `--json` unset the file
receives the JSON dump, not the text rendering — the claim's
"otherwise the chosen (text) format" fails.  The written content (a
JSON object, starting with a brace) differs from what the text path
prints to stdout for the same invocation (which starts with a
newline). -/
theorem c2_counterexample :
    mainEffects argsOut envA =
      [Effect.writeFile "out.txt" (dumps (Json.obj (mainResults argsOut envA ++
        [("timestamp", Json.str envA.timestamp)]))),
       Effect.print ("Information saved to " ++ "out.txt")] ∧
    dumps (Json.obj (mainResults argsOut envA ++
        [("timestamp", Json.str envA.timestamp)])) ≠
      printsOf (mainEffects { argsOut with output := none } envA) := by
  have hres : mainResults argsOut envA ++ [("timestamp", Json.str envA.timestamp)] =
      ("system", get_system_info envA.platform) ::
        [("timestamp", Json.str envA.timestamp)] := by
    simp [mainResults, argsOut, applyDefault, anyFlag]
  constructor
  · simp [mainEffects, argsOut, save_to_file]
  · intro heq
    have h1 : (dumps (Json.obj (mainResults argsOut envA ++
        [("timestamp", Json.str envA.timestamp)]))).data.head? = some '\x7b' := by
      rw [hres]
      simp [dumps, dumpsV]
    have hme : mainEffects { argsOut with output := none } envA =
        .print ("\nSystem Information - " ++ envA.timestamp ++ "\n") ::
          displaySections
            (mainResults { argsOut with output := none } envA ++
              [("timestamp", Json.str envA.timestamp)])
            (sectionTitles { argsOut with output := none }) := by
      simp [mainEffects, argsOut]
    have h2 : (printsOf (mainEffects { argsOut with output := none } envA)).data.head? =
        some '\n' := by
      rw [hme]
      unfold printsOf
      rw [List.foldl_cons]
      refine printsOf_head _ _ '\n'
        ("System Information - ".data ++ envA.timestamp.data ++ ['\n'] ++ ['\n']) ?_
      have hlit : ("\nSystem Information - ").data =
          '\n' :: "System Information - ".data := rfl
      simp [hlit]
    rw [heq] at h1
    rw [h1] at h2
    simp at h2

end SysInfo
